import Mathlib

/-!
Verification of the corpus-ingestion pipeline in `scripts/ingest/main.py`
(URA-Guidance-Assistant).

The Python source is shallowly embedded: each Python function that the
claims touch is translated into an executable Lean definition operating on
`String` / `List Char` / `List String`, and the Postgres store is modelled
as association lists keyed exactly as the SQL `ON CONFLICT` keys
(`source_key`, `chunk_hash`, `full_path`, `doc_path`).

Modelling conventions, stated once:
* Python `str` is `String` (both sequences of unicode codepoints; `len`
  is `String.length`).
* Whitespace (`str.strip`, `re \s`) is modelled by the ASCII whitespace
  set { ' ', '\t', '\n', '\r', '\x0b', '\x0c' }.  Exotic unicode
  whitespace (NBSP, U+2028, ...) is modelled as non-whitespace; the
  pipeline's corpus and every call site in the file only produce ASCII
  whitespace.  Likewise `\d` / `\w` are modelled as ASCII digits / ASCII
  word characters.
* `str.splitlines` is modelled as splitting on `\n`, `\r\n` and `\r`
  (no trailing empty line), the boundaries the pipeline can produce.
* `hashlib.sha256` and `uuid.uuid5` (SHA-1 based) are implemented in
  full over the UTF-8 bytes of the input, as in CPython.
-/

namespace Ingest

/-! ### Python string primitives -/

/-- ASCII whitespace, the model of Python `str.isspace` / `re \s`. -/
def pyIsSpace (c : Char) : Bool :=
  c = ' ' || c = '\t' || c = '\n' || c = '\r' || c = '\x0b' || c = '\x0c'

/-- Characters that are not line separators for `splitlines`. -/
def notNl (c : Char) : Bool := !(c = '\n' || c = '\r')

/-- Left strip of ASCII whitespace (`str.lstrip()` on chars). -/
def trimLeftC (cs : List Char) : List Char := cs.dropWhile pyIsSpace

/-- Right strip of ASCII whitespace (`str.rstrip()` on chars). -/
def trimRightC (cs : List Char) : List Char := ((cs.reverse).dropWhile pyIsSpace).reverse

/-- Both-sided strip (`str.strip()` on chars). -/
def trimC (cs : List Char) : List Char := trimRightC (trimLeftC cs)

/-- Python `str.strip()`. -/
def pyStrip (s : String) : String := ⟨trimC s.data⟩

/-- Python `str.splitlines()` on chars, written with explicit fuel so the
kernel can evaluate it; `splitlinesC` below supplies sufficient fuel. -/
def splitlinesF : Nat → List Char → List (List Char)
  | _, [] => []
  | 0, _ :: _ => []
  | fuel + 1, c :: cs0 =>
    let cs := c :: cs0
    let line := cs.takeWhile notNl
    match cs.dropWhile notNl with
    | [] => [line]
    | a :: rest =>
      if a = '\r' then
        match rest with
        | [] => line :: splitlinesF fuel rest
        | d :: r =>
          if d = '\n' then line :: splitlinesF fuel r
          else line :: splitlinesF fuel rest
      else line :: splitlinesF fuel rest

/-- Python `str.splitlines()` on chars: split at `\n`, `\r\n`, `\r`,
producing no trailing empty line. -/
def splitlinesC (cs : List Char) : List (List Char) := splitlinesF cs.length cs

/-- Python `str.splitlines()`. -/
def pySplitlines (s : String) : List String := (splitlinesC s.data).map String.mk

/-- Python `"\n".join(lines)`. -/
def joinNl : List String → String
  | [] => ""
  | [l] => l
  | l :: rest => l ++ "\n" ++ joinNl rest

/-- Python `" ".join(lines)`. -/
def joinSp : List String → String
  | [] => ""
  | [l] => l
  | l :: rest => l ++ " " ++ joinSp rest

/-- Fuelled worker replacing each maximal run of characters satisfying
`p` by one `r` (model of `re.sub(cls, repl, ·)` for a character-class
pattern with `+`); `collapseRuns` supplies sufficient fuel. -/
def collapseRunsF (p : Char → Bool) (r : Char) : Nat → List Char → List Char
  | _, [] => []
  | 0, _ :: _ => []
  | fuel + 1, c :: rest =>
    if p c then r :: collapseRunsF p r fuel (rest.dropWhile p)
    else c :: collapseRunsF p r fuel rest

/-- Replace each maximal run of characters satisfying `p` by one `r`. -/
def collapseRuns (p : Char → Bool) (r : Char) (cs : List Char) : List Char :=
  collapseRunsF p r cs.length cs

/-- Model of `re.sub(r"\s+", " ", s)`. -/
def collapseWs (s : String) : String := ⟨collapseRuns pyIsSpace ' ' s.data⟩

/-- Fuelled worker for Python `text.split()` on chars: maximal runs of
non-whitespace; `splitWsC` supplies sufficient fuel. -/
def splitWsF : Nat → List Char → List (List Char)
  | 0, _ => []
  | fuel + 1, cs =>
    match cs.dropWhile pyIsSpace with
    | [] => []
    | c :: rest => (c :: rest.takeWhile (fun d => !pyIsSpace d)) ::
        splitWsF fuel (rest.dropWhile (fun d => !pyIsSpace d))

/-- Python `text.split()` on chars: maximal runs of non-whitespace. -/
def splitWsC (cs : List Char) : List (List Char) := splitWsF (cs.length + 1) cs

/-- Python `len(text.split())`: number of whitespace-separated words. -/
def wordCount (s : String) : Nat := (splitWsC s.data).length

/-- ASCII lower-casing, the model of `str.lower` / `re.IGNORECASE` on the
ASCII corpus. -/
def lowerC (c : Char) : Char := c.toLower

/-- Python `s.lstrip("#")`. -/
def lstripHash (s : String) : String := ⟨s.data.dropWhile (· = '#')⟩

/-- Python `s.startswith("#")`. -/
def startsWithHash (s : String) : Bool :=
  match s.data with
  | '#' :: _ => true
  | _ => false

/-- ASCII word character (`\w`). -/
def isWordChar (c : Char) : Bool := c.isAlphanum || c = '_'

/-- Python `s.startswith(c)` for a single character. -/
def startsWithCh (c : Char) (s : String) : Bool :=
  match s.data with
  | d :: _ => d = c
  | [] => false

/-! ### SHA-256, SHA-1 and `uuid.uuid5`

Implemented on `List Nat` byte strings with arithmetic mod `2^32`,
following FIPS 180-4, so that `sha256_text` and `uuid5` are the real
functions the Python code calls. -/

def M32 : Nat := 4294967296

/-- Right rotation of a 32-bit word by `n`. -/
def rotr32 (n x : Nat) : Nat := (x / 2 ^ n + x % 2 ^ n * 2 ^ (32 - n)) % M32

/-- Left rotation of a 32-bit word by `n`. -/
def rotl32 (n x : Nat) : Nat := rotr32 (32 - n) x

/-- UTF-8 encoding of one codepoint. -/
def utf8Char (c : Char) : List Nat :=
  let n := c.toNat
  if n < 128 then [n]
  else if n < 2048 then [192 + n / 64, 128 + n % 64]
  else if n < 65536 then [224 + n / 4096, 128 + n / 64 % 64, 128 + n % 64]
  else [240 + n / 262144, 128 + n / 4096 % 64, 128 + n / 64 % 64, 128 + n % 64]

/-- UTF-8 encoding of a string (`str.encode("utf-8")`). -/
def utf8Encode (s : String) : List Nat := s.data.flatMap utf8Char

/-- Big-endian bytes of `n`, `k` bytes wide. -/
def beBytes (k n : Nat) : List Nat :=
  match k with
  | 0 => []
  | k + 1 => beBytes k (n / 256) ++ [n % 256]

/-- Merkle–Damgård padding shared by SHA-1 and SHA-256: append `0x80`,
zero-pad to 56 mod 64, append the 64-bit big-endian bit length. -/
def shaPad (msg : List Nat) : List Nat :=
  let padLen := (55 + 64 - msg.length % 64) % 64 + 1
  msg ++ [128] ++ List.replicate (padLen - 1) 0 ++ beBytes 8 (msg.length * 8)

/-- Fold each 4 big-endian bytes into one 32-bit word. -/
def wordsOfBytes : List Nat → List Nat
  | b0 :: b1 :: b2 :: b3 :: rest => (((b0 * 256 + b1) * 256 + b2) * 256 + b3) :: wordsOfBytes rest
  | _ => []

/-- Fuelled worker splitting a word list into 16-word blocks;
`blocksOfWords` supplies sufficient fuel. -/
def blocksOfWordsF : Nat → List Nat → List (List Nat)
  | _, [] => []
  | 0, _ :: _ => []
  | fuel + 1, w :: ws => ((w :: ws).take 16) :: blocksOfWordsF fuel ((w :: ws).drop 16)

/-- Split a word list into 16-word blocks. -/
def blocksOfWords (ws : List Nat) : List (List Nat) := blocksOfWordsF ws.length ws

/-- SHA-256 round constants. -/
def sha256K : List Nat :=
  [1116352408, 1899447441, 3049323471, 3921009573, 961987163, 1508970993,
   2453635748, 2870763221, 3624381080, 310598401, 607225278, 1426881987,
   1925078388, 2162078206, 2614888103, 3248222580, 3835390401, 4022224774,
   264347078, 604807628, 770255983, 1249150122, 1555081692, 1996064986,
   2554220882, 2821834349, 2952996808, 3210313671, 3336571891, 3584528711,
   113926993, 338241895, 666307205, 773529912, 1294757372, 1396182291,
   1695183700, 1986661051, 2177026350, 2456956037, 2730485921, 2820302411,
   3259730800, 3345764771, 3516065817, 3600352804, 4094571909, 275423344,
   430227734, 506948616, 659060556, 883997877, 958139571, 1322822218,
   1537002063, 1747873779, 1955562222, 2024104815, 2227730452, 2361852424,
   2428436474, 2756734187, 3204031479, 3329325298]

/-- SHA-256 message-schedule extension from 16 to 64 words. -/
def sha256Extend (w : List Nat) (i : Nat) : List Nat :=
  match i with
  | 0 => w
  | i + 1 =>
    let w := sha256Extend w i
    let g (k : Nat) : Nat := w.getD (w.length - k) 0
    let x15 := g 15
    let x2 := g 2
    let s0 := Nat.xor (rotr32 7 x15) (Nat.xor (rotr32 18 x15) (x15 / 2 ^ 3))
    let s1 := Nat.xor (rotr32 17 x2) (Nat.xor (rotr32 19 x2) (x2 / 2 ^ 10))
    w ++ [(g 16 + s0 + g 7 + s1) % M32]

/-- One SHA-256 compression round. -/
def sha256Round (st : List Nat) (kw : Nat × Nat) : List Nat :=
  match st with
  | [a, b, c, d, e, f, g, h] =>
    let s1 := Nat.xor (rotr32 6 e) (Nat.xor (rotr32 11 e) (rotr32 25 e))
    let ch := Nat.xor (Nat.land e f) (Nat.land (M32 - 1 - e) g)
    let t1 := (h + s1 + ch + kw.1 + kw.2) % M32
    let s0 := Nat.xor (rotr32 2 a) (Nat.xor (rotr32 13 a) (rotr32 22 a))
    let mj := Nat.xor (Nat.land a b) (Nat.xor (Nat.land a c) (Nat.land b c))
    let t2 := (s0 + mj) % M32
    [(t1 + t2) % M32, a, b, c, (d + t1) % M32, e, f, g]
  | st => st

/-- SHA-256 compression of one block into the running hash. -/
def sha256Block (h : List Nat) (block : List Nat) : List Nat :=
  let w := sha256Extend block 48
  let out := (sha256K.zip w).foldl sha256Round h
  (h.zip out).map (fun p => (p.1 + p.2) % M32)

def sha256Init : List Nat :=
  [0x6a09e667, 0xbb67ae85, 0x3c6ef372, 0xa54ff53a, 0x510e527f, 0x9b05688c, 0x1f83d9ab, 0x5be0cd19]

/-- Hex digit. -/
def hexDigit (n : Nat) : Char := if n < 10 then Char.ofNat (48 + n) else Char.ofNat (87 + n)

/-- Lowercase hex of one byte. -/
def hexByte (n : Nat) : List Char := [hexDigit (n / 16 % 16), hexDigit (n % 16)]

/-- Expand a 32-bit word into 4 big-endian bytes. -/
def bytesOfWord (w : Nat) : List Nat := beBytes 4 w

/-- SHA-256 digest of a byte string, as bytes. -/
def sha256Bytes (msg : List Nat) : List Nat :=
  let blocks := blocksOfWords (wordsOfBytes (shaPad msg))
  (blocks.foldl sha256Block sha256Init).flatMap bytesOfWord

/-- Model of `sha256_bytes` of `scripts/ingest/main.py`:
`hashlib.sha256(payload).hexdigest()` on a byte string. -/
def sha256Hex (msg : List Nat) : String := ⟨(sha256Bytes msg).flatMap hexByte⟩

/-- Function `sha256_text` of `scripts/ingest/main.py`: SHA-256 hex digest
of the UTF-8 bytes. -/
def sha256_text (payload : String) : String := sha256Hex (utf8Encode payload)

/-- One SHA-1 round; state is `[a,b,c,d,e]`, input the round index and word. -/
def sha1Round (st : List Nat) (iw : Nat × Nat) : List Nat :=
  match st with
  | [a, b, c, d, e] =>
    let i := iw.1
    let f :=
      if i < 20 then Nat.xor (Nat.land b c) (Nat.land (M32 - 1 - b) d)
      else if i < 40 then Nat.xor b (Nat.xor c d)
      else if i < 60 then Nat.xor (Nat.land b c) (Nat.xor (Nat.land b d) (Nat.land c d))
      else Nat.xor b (Nat.xor c d)
    let k :=
      if i < 20 then 0x5a827999
      else if i < 40 then 0x6ed9eba1
      else if i < 60 then 0x8f1bbcdc
      else 0xca62c1d6
    let t := (rotl32 5 a + f + e + k + iw.2) % M32
    [t, a, rotl32 30 b, c, d]
  | st => st

/-- SHA-1 message-schedule extension from 16 to 80 words. -/
def sha1Extend (w : List Nat) (i : Nat) : List Nat :=
  match i with
  | 0 => w
  | i + 1 =>
    let w := sha1Extend w i
    let g (k : Nat) : Nat := w.getD (w.length - k) 0
    w ++ [rotl32 1 (Nat.xor (g 3) (Nat.xor (g 8) (Nat.xor (g 14) (g 16))))]

/-- SHA-1 compression of one block. -/
def sha1Block (h : List Nat) (block : List Nat) : List Nat :=
  let w := sha1Extend block 64
  let out := ((List.range 80).zip w).foldl sha1Round h
  (h.zip out).map (fun p => (p.1 + p.2) % M32)

def sha1Init : List Nat := [0x67452301, 0xefcdab89, 0x98badcfe, 0x10325476, 0xc3d2e1f0]

/-- SHA-1 digest of a byte string, as bytes. -/
def sha1Bytes (msg : List Nat) : List Nat :=
  let blocks := blocksOfWords (wordsOfBytes (shaPad msg))
  (blocks.foldl sha1Block sha1Init).flatMap bytesOfWord

/-- Bytes of `uuid.NAMESPACE_URL` (6ba7b811-9dad-11d1-80b4-00c04fd430c8). -/
def NAMESPACE_URL : List Nat :=
  [0x6b, 0xa7, 0xb8, 0x11, 0x9d, 0xad, 0x11, 0xd1, 0x80, 0xb4, 0x00, 0xc0, 0x4f, 0xd4, 0x30, 0xc8]

/-- Bytes of `uuid.NAMESPACE_OID` (6ba7b812-9dad-11d1-80b4-00c04fd430c8). -/
def NAMESPACE_OID : List Nat :=
  [0x6b, 0xa7, 0xb8, 0x12, 0x9d, 0xad, 0x11, 0xd1, 0x80, 0xb4, 0x00, 0xc0, 0x4f, 0xd4, 0x30, 0xc8]

/-- Canonical 8-4-4-4-12 rendering of 16 UUID bytes. -/
def uuidFormat (bs : List Nat) : String :=
  let hx := fun (l : List Nat) => l.flatMap hexByte
  ⟨hx (bs.take 4) ++ '-' :: hx ((bs.drop 4).take 2) ++ '-' :: hx ((bs.drop 6).take 2) ++
    '-' :: hx ((bs.drop 8).take 2) ++ '-' :: hx (bs.drop 10)⟩

/-- Model of `str(uuid.uuid5(namespace, name))`: SHA-1 of namespace bytes
plus the UTF-8 name, truncated to 16 bytes with version/variant bits set. -/
def uuid5 (ns : List Nat) (name : String) : String :=
  let d := (sha1Bytes (ns ++ utf8Encode name)).take 16
  let d := d.mapIdx (fun i b =>
    if i = 6 then b % 16 + 0x50 else if i = 8 then b % 64 + 0x80 else b)
  uuidFormat d

/-! ### Regex matchers of `scripts/ingest/main.py`

Each Python regex used by the chunker / tree builder is modelled by an
executable matcher.  All call sites feed newline-free strings (lines or
stripped headings), for which the models below agree with `re`. -/

/-- Helper for `\b` after a keyword: the keyword is a prefix of the
lower-cased text and is followed by a non-word character or the end. -/
def startsKw (kw : String) (h : String) : Bool :=
  let hl := h.data.map lowerC
  kw.data.isPrefixOf hl &&
    (match hl.drop kw.length with
     | [] => true
     | c :: _ => !isWordChar c)

/-- Model of `re.match(r"^(section|part|article|schedule)\b", h, re.IGNORECASE)`. -/
def matchSectionKw (h : String) : Bool :=
  startsKw "section" h || startsKw "part" h || startsKw "article" h || startsKw "schedule" h

/-- Model of `re.match(r"^page\s+(\d+)$", h, re.IGNORECASE)`, returning
group 1 (the digits). -/
def pageRefNum (h : String) : Option String :=
  match h.data.map lowerC with
  | 'p' :: 'a' :: 'g' :: 'e' :: rest =>
    let sp := rest.takeWhile pyIsSpace
    let after := rest.dropWhile pyIsSpace
    let ds := after.takeWhile Char.isDigit
    let tl := after.dropWhile Char.isDigit
    if sp ≠ [] ∧ ds ≠ [] ∧ tl = [] then some ⟨ds⟩ else none
  | _ => none

/-- Boolean form of `pageRefNum`. -/
def isPageRef (h : String) : Bool := (pageRefNum h).isSome

/-- Core of the page-heading line regex, applied to an already stripped
character list. -/
def pageHeadingCore (t : List Char) : Bool :=
  let tl := t.map lowerC
  let hs := tl.takeWhile (· = '#')
  let rest := tl.dropWhile (· = '#')
  hs ≠ [] && isPageRef ⟨rest.dropWhile pyIsSpace⟩

/-- Model of `re.match(r"^\s*#+\s*page\s+\d+\s*$", line, re.IGNORECASE)`
on a newline-free line: the pattern is anchored with optional whitespace
at both ends, so a line matches iff its strip matches the core. -/
def isPageHeadingLineC (l : List Char) : Bool := pageHeadingCore (trimC l)

/-- Line-level page-heading matcher on strings. -/
def isPageHeadingLine (l : String) : Bool := isPageHeadingLineC l.data

/-- Function `slugify` of `scripts/ingest/main.py`. -/
def slugify (text : String) : String :=
  let s0 := (trimC (text.data.map lowerC)).filter (fun c => isWordChar c || pyIsSpace c || c = '-')
  let s1 := collapseRuns (fun c => pyIsSpace c || c = '_') '-' s0
  let s2 := collapseRuns (fun c => c = '-') '-' s1
  ⟨((s2.dropWhile (· = '-')).reverse.dropWhile (· = '-')).reverse.take 80⟩

/-- Function `compute_reading_time` of `scripts/ingest/main.py`:
`(len(text.split()), max(1, round(words / 200)))`.  Python `round` on the
float `words / 200` is round-half-to-even of the exact rational for every
word count the pipeline can produce (the float quotient is exact at the
ties `w = 200k + 100` and elsewhere well within 1/400 of the true value),
so it is modelled as exact half-even rounding. -/
def pyRoundHalfEven (w d : Nat) : Nat :=
  let q := w / d
  let r := w % d
  if 2 * r < d then q
  else if 2 * r > d then q + 1
  else if q % 2 = 0 then q else q + 1

def compute_reading_time (text : String) : Nat × Nat :=
  let words := wordCount text
  (words, max 1 (pyRoundHalfEven words 200))

/-! ### Data model -/

/-- Dataclass `SourceRecord` of `scripts/ingest/main.py`. -/
structure SourceRecord where
  id : String
  title : String
  publisher : String
  category : String
  doc_type : String
  source_type : String
  url : Option String
  acquisition : String
  local_path : Option String
  effective_from : Option String
  effective_to : Option String
  notes : Option String
  language_code : String
deriving DecidableEq, Inhabited

/-- Python truthiness of an optional string (`None` and `""` are falsy). -/
def optTruthy : Option String → Bool
  | some s => s ≠ ""
  | none => false

/-- Method `SourceRecord.source_uuid`. -/
def source_uuid (s : SourceRecord) : String :=
  uuid5 NAMESPACE_URL ("source|" ++ s.id)

/-- Method `SourceRecord.canonical_doc_path` (with Python truthiness on
the optional fields). -/
def canonical_doc_path (s : SourceRecord) : String :=
  if optTruthy s.url then s.url.getD ""
  else if optTruthy s.local_path then s.local_path.getD ""
  else "source:" ++ s.id

/-- One chunk dict produced by `chunk_markdown`. -/
structure Chunk where
  id : String
  source_id : String
  doc_path : String
  title : String
  section_ref : Option String
  page_ref : Option String
  chunk_text : String
  chunk_hash : String
  scope : String
  category : String
  doc_type : String
  heading_title : Option String
  effective_from : Option String
  effective_to : Option String
  chunk_language_code : String
deriving DecidableEq, Inhabited

/-! ### Chunker (`chunk_markdown`) -/

/-- Mutable state of the line loop in `chunk_markdown`. -/
structure ChunkAcc where
  heading_title : Option String
  section_ref : Option String
  page_ref : Option String
  buffer : List String
  chunks : List Chunk
  in_frontmatter : Bool
deriving DecidableEq, Inhabited

def chunkAccInit : ChunkAcc :=
  { heading_title := none, section_ref := none, page_ref := none,
    buffer := [], chunks := [], in_frontmatter := false }

/-- Text of a flushed buffer:
`re.sub(r"\s+", " ", " ".join(buffer)).strip()`. -/
def flushText (buffer : List String) : String :=
  pyStrip (collapseWs (joinSp buffer))

/-- Closure `flush` of `chunk_markdown`: discard a normalized buffer
shorter than 60 characters, otherwise emit a chunk whose hash is the
SHA-256 of `source_id|section_ref|text` and whose id is the UUIDv5
(namespace OID) of that hash. -/
def flushChunk (source : SourceRecord) (st : ChunkAcc) : ChunkAcc :=
  let text := flushText st.buffer
  if text.length < 60 then { st with buffer := [] }
  else
    let chunk_hash := sha256_text (source.id ++ "|" ++ st.section_ref.getD "" ++ "|" ++ text)
    { st with
      buffer := [],
      chunks := st.chunks ++
        [{ id := uuid5 NAMESPACE_OID chunk_hash,
           source_id := source_uuid source,
           doc_path := canonical_doc_path source,
           title := source.title,
           section_ref := st.section_ref,
           page_ref := st.page_ref,
           chunk_text := text,
           chunk_hash := chunk_hash,
           scope := "global",
           category := source.category,
           doc_type := source.doc_type,
           heading_title := st.heading_title,
           effective_from := source.effective_from,
           effective_to := source.effective_to,
           chunk_language_code := source.language_code }] }

/-- Heading bookkeeping of the loop of `chunk_markdown`: set
`heading_title`, promote a legal cross-reference heading to `section_ref`,
record a `Page N` heading in `page_ref` (the three sequential updates of
the Python loop). -/
def headingState (st : ChunkAcc) (ht : String) : ChunkAcc :=
  { st with
    heading_title := some ht,
    section_ref := if matchSectionKw ht then some ht else st.section_ref,
    page_ref := match pageRefNum ht with | some d => some d | none => st.page_ref }

/-- Body of the `for line in content_md.splitlines()` loop of
`chunk_markdown`. -/
def chunkStep (source : SourceRecord) (max_chars : Nat) (st : ChunkAcc) (line : String) :
    ChunkAcc :=
  let stripped := pyStrip line
  if stripped = "---" then { st with in_frontmatter := !st.in_frontmatter }
  else if st.in_frontmatter || stripped = "" then st
  else if startsWithHash stripped then
    headingState (if st.buffer ≠ [] then flushChunk source st else st)
      (pyStrip (lstripHash stripped))
  else
    let st := { st with buffer := st.buffer ++ [stripped] }
    if max_chars ≤ (st.buffer.map String.length).sum then flushChunk source st else st

/-- Function `chunk_markdown` of `scripts/ingest/main.py` (the Python
default `max_chars=1000` is passed explicitly by callers of this model). -/
def chunk_markdown (source : SourceRecord) (content_md : String) (max_chars : Nat) :
    List Chunk :=
  let st := (pySplitlines content_md).foldl (chunkStep source max_chars) chunkAccInit
  let st := if st.buffer ≠ [] then flushChunk source st else st
  st.chunks

/-! ### Section-tree builder -/

/-- One `doc_sections` row dict. -/
structure SectionNode where
  id : String
  source_id : Option String
  parent_id : Option String
  slug : String
  full_path : String
  section_ref : Option String
  title : String
  content_md : String
  sort_order : Nat
  level : Nat
  word_count : Nat
  reading_time_minutes : Nat
  is_placeholder : Bool
deriving DecidableEq, Inhabited

/-- Fold step of `generate_category_nodes`: first component is the list of
categories already seen (in first-seen order). -/
def catStep (acc : List String × List SectionNode) (source : SourceRecord) :
    List String × List SectionNode :=
  let (seen, nodes) := acc
  if seen.contains source.category then acc
  else
    (seen ++ [source.category],
     nodes ++
       [{ id := uuid5 NAMESPACE_URL ("category|" ++ source.category),
          source_id := none, parent_id := none,
          slug := slugify source.category, full_path := slugify source.category,
          section_ref := none, title := source.category, content_md := "",
          sort_order := seen.length, level := 0, word_count := 0,
          reading_time_minutes := 0, is_placeholder := false }])

/-- Function `generate_category_nodes` of `scripts/ingest/main.py`. -/
def generate_category_nodes (sources : List SourceRecord) : List SectionNode :=
  (sources.foldl catStep ([], [])).2

/-- Frontmatter filter at the top of `generate_doc_sections`: drop the
`---`-delimited frontmatter, keep the raw body lines. -/
def stripFrontmatter : Bool → List String → List String
  | _, [] => []
  | fm, l :: rest =>
    if pyStrip l = "---" then stripFrontmatter (!fm) rest
    else if fm then stripFrontmatter fm rest
    else l :: stripFrontmatter fm rest

/-- Body lines of a normalized document (frontmatter removed). -/
def bodyLinesOf (content_md : String) : List String :=
  stripFrontmatter false (pySplitlines content_md)

/-- Headings list of `generate_doc_sections`:
`[line.lstrip("#").strip() for line in body_lines if line.strip().startswith("#")]`. -/
def docHeadings (content_md : String) : List String :=
  (bodyLinesOf content_md).filterMap fun l =>
    if startsWithHash (pyStrip l) then some (pyStrip (lstripHash l)) else none

/-- Condition `all_page_headings`:
`headings and all(re.match(r"^page\s+\d+$", h, re.IGNORECASE) for h in headings)`. -/
def allPageHeadings (content_md : String) : Bool :=
  !(docHeadings content_md).isEmpty && (docHeadings content_md).all isPageRef

/-- Collapsed body of the page-only branch: page-heading lines dropped,
the rest re-joined and stripped. -/
def collapsedBody (content_md : String) : String :=
  pyStrip (joinNl ((bodyLinesOf content_md).filter fun l => !isPageHeadingLine l))

/-- Mutable state of the heading loop of `generate_doc_sections`. -/
structure SecAcc where
  current_heading : Option String
  current_ref : Option String
  current_lines : List String
  child_order : Nat
  sections : List SectionNode
deriving DecidableEq, Inhabited

/-- Closure `flush_section` of `generate_doc_sections` (Python truthiness:
a current heading that is the empty string counts as absent). -/
def flushSection (source : SourceRecord) (doc_path doc_id : String) (st : SecAcc) : SecAcc :=
  let text := pyStrip (joinNl st.current_lines)
  if text = "" ∧ st.current_heading.getD "" = "" then { st with current_lines := [] }
  else
    let heading := if st.current_heading.getD "" = "" then "Introduction" else st.current_heading.getD ""
    let sec_slug := slugify heading
    let wr := if text ≠ "" then compute_reading_time text else (0, 0)
    { st with
      current_lines := [],
      child_order := st.child_order + 1,
      sections := st.sections ++
        [{ id := uuid5 NAMESPACE_URL ("section|" ++ source.id ++ "|" ++ toString st.child_order ++ "|" ++ heading),
           source_id := some (source_uuid source),
           parent_id := some doc_id,
           slug := sec_slug,
           full_path := doc_path ++ "/" ++ sec_slug,
           section_ref := st.current_ref,
           title := heading,
           content_md := text,
           sort_order := st.child_order,
           level := 2,
           word_count := wr.1,
           reading_time_minutes := wr.2,
           is_placeholder := false }] }

/-- Body of the `for line in body_lines` loop of `generate_doc_sections`. -/
def secStep (source : SourceRecord) (doc_path doc_id : String) (st : SecAcc) (line : String) :
    SecAcc :=
  let stripped := pyStrip line
  if startsWithHash stripped then
    let st := flushSection source doc_path doc_id st
    let h := pyStrip (lstripHash stripped)
    { st with
      current_heading := some h,
      current_ref := if matchSectionKw h then some h else none }
  else
    { st with current_lines := st.current_lines ++ [line] }

/-- Stripped body of a normalized document
(`"\n".join(body_lines).strip()`). -/
def docBody (content_md : String) : String := pyStrip (joinNl (bodyLinesOf content_md))

/-- The level-1 document node appended to `sections` before the heading
loop of `generate_doc_sections`. -/
def docNodeOf (source : SourceRecord) (content_md : String)
    (category_slug category_id : String) : SectionNode :=
  { id := uuid5 NAMESPACE_URL ("doc|" ++ source.id),
    source_id := some (source_uuid source), parent_id := some category_id,
    slug := slugify source.id, full_path := category_slug ++ "/" ++ slugify source.id,
    section_ref := none, title := source.title, content_md := "", sort_order := 0,
    level := 1, word_count := (compute_reading_time (docBody content_md)).1,
    reading_time_minutes := (compute_reading_time (docBody content_md)).2,
    is_placeholder := false }

/-- Initial loop state of `generate_doc_sections`. -/
def secInit (docNode : SectionNode) : SecAcc :=
  { current_heading := none, current_ref := none, current_lines := [],
    child_order := 0, sections := [docNode] }

/-- Function `generate_doc_sections` of `scripts/ingest/main.py`. -/
def generate_doc_sections (source : SourceRecord) (content_md : String)
    (category_slug category_id : String) : List SectionNode :=
  let doc_path := category_slug ++ "/" ++ slugify source.id
  let doc_id := uuid5 NAMESPACE_URL ("doc|" ++ source.id)
  let docNode := docNodeOf source content_md category_slug category_id
  if allPageHeadings content_md then
    let collapsed := collapsedBody content_md
    let wr := if collapsed ≠ "" then compute_reading_time collapsed else (0, 0)
    [{ docNode with content_md := collapsed, word_count := wr.1, reading_time_minutes := wr.2 }]
  else
    let st := (bodyLinesOf content_md).foldl (secStep source doc_path doc_id) (secInit docNode)
    let st := flushSection source doc_path doc_id st
    if st.sections.length = 1 then
      st.sections.map fun n => { n with content_md := docBody content_md }
    else st.sections

/-- Function `generate_placeholder_sections` of `scripts/ingest/main.py`. -/
def generate_placeholder_sections (source : SourceRecord)
    (category_slug category_id : String) : List SectionNode :=
  let doc_slug := slugify source.id
  [{ id := uuid5 NAMESPACE_URL ("doc|" ++ source.id),
     source_id := none, parent_id := some category_id, slug := doc_slug,
     full_path := category_slug ++ "/" ++ doc_slug, section_ref := none,
     title := source.title, content_md := "", sort_order := 0, level := 1,
     word_count := 0, reading_time_minutes := 0, is_placeholder := true }]

/-! ### Content normalizer (`parse_html`, `_parse_akn`, `parse_pdf`)

BeautifulSoup's byte-to-DOM parsing is external; the DOM it returns is
modelled as an ordered tree of elements (name, class list, id attribute,
children) and text nodes.  `find`, `find_all`, `descendants` and
`get_text` are modelled by their documented behaviour: pre-order document
order; `get_text(sep, strip=True)` joins the stripped non-empty text
descendants with `sep`. -/

inductive HNode where
  | elem (name : String) (classes : List String) (idAttr : Option String)
      (children : List HNode) : HNode
  | text (s : String) : HNode

instance : Inhabited HNode := ⟨.text ""⟩

def HNode.childrenOf : HNode → List HNode
  | .elem _ _ _ cs => cs
  | .text _ => []

/-- Join with an arbitrary separator (Python `sep.join`). -/
def joinWith (sep : String) : List String → String
  | [] => ""
  | [l] => l
  | l :: rest => l ++ sep ++ joinWith sep rest

mutual

/-- Text fragments of a node, in document order. -/
def textFrags : HNode → List String
  | .text s => [s]
  | .elem _ _ _ cs => textFragsL cs

/-- Text fragments of a node list. -/
def textFragsL : List HNode → List String
  | [] => []
  | n :: ns => textFrags n ++ textFragsL ns

end

/-- Model of `node.get_text(sep, strip=True)`. -/
def getText (sep : String) (n : HNode) : String :=
  joinWith sep (((textFrags n).map pyStrip).filter (· ≠ ""))

mutual

/-- First node (pre-order: the node itself, then its subtree) in one tree
satisfying `p`. -/
def findNode (p : HNode → Bool) : HNode → Option HNode
  | .text t => if p (.text t) then some (.text t) else none
  | .elem nm cl ia cs =>
    if p (.elem nm cl ia cs) then some (.elem nm cl ia cs) else findTree p cs

/-- First element (pre-order, document order) in a forest satisfying `p`. -/
def findTree (p : HNode → Bool) : List HNode → Option HNode
  | [] => none
  | n :: ns =>
    match findNode p n with
    | some m => some m
    | none => findTree p ns

end

/-- Model of `soup.find(...)`: search the descendants of the document. -/
def soupFind (p : HNode → Bool) (doc : HNode) : Option HNode :=
  findTree p doc.childrenOf

mutual

/-- All nodes of one tree satisfying `p`, in document order. -/
def findAllNode (p : HNode → Bool) : HNode → List HNode
  | .text t => if p (.text t) then [.text t] else []
  | .elem nm cl ia cs =>
    (if p (.elem nm cl ia cs) then [.elem nm cl ia cs] else []) ++ findAllTree p cs

/-- All elements of a forest satisfying `p`, in document order
(`find_all(..., recursive=True)`). -/
def findAllTree (p : HNode → Bool) : List HNode → List HNode
  | [] => []
  | n :: ns => findAllNode p n ++ findAllTree p ns

end

def hasClass (cls : String) : HNode → Bool
  | .elem _ classes _ _ => classes.contains cls
  | .text _ => false

def hasName (nm : String) : HNode → Bool
  | .elem name _ _ _ => name = nm
  | .text _ => false

def hasId (i : String) : HNode → Bool
  | .elem _ _ idAttr _ => idAttr = some i
  | .text _ => false

def isHeadingName (name : String) : Bool :=
  name = "h1" || name = "h2" || name = "h3" || name = "h4" || name = "h5" || name = "h6"

/-- Heading level `max(1, min(6, int(node.name[1])))` for `h1`..`h6`. -/
def headingLevel (name : String) : Nat :=
  match name.data with
  | _ :: d :: _ => max 1 (min 6 (d.toNat - 48))
  | _ => 1

/-- Markdown heading prefix of `n` hashes. -/
def hashes (n : Nat) : String := ⟨List.replicate n '#'⟩

/-- Lines emitted by the generic HTML block walker of `parse_html` for the
elements matched by `find_all(["h1".."h6", "p", "li"])`. -/
def blockLines : List HNode → List String
  | [] => []
  | n :: ns =>
    (match n with
     | .elem name _ _ _ =>
       let text := getText " " n
       if text = "" then []
       else if startsWithCh 'h' name then [hashes (headingLevel name) ++ " " ++ text, ""]
       else if name = "li" then ["- " ++ text]
       else [text, ""]
     | .text _ => []) ++ blockLines ns

mutual

/-- Walk of `container.descendants` in `_parse_akn`, written recursively:
nodes whose descendants the Python loop marks `emitted` are exactly the
nodes this version does not recurse into. -/
def aknVisit (n : HNode) : List String :=
  match n with
  | .text _ => []
  | .elem name classes _ children =>
    if isHeadingName name then
      (let text := getText " " n
       if text ≠ "" then ["", hashes (headingLevel name) ++ " " ++ text, ""] else []) ++
      aknVisitL children
    else if classes.contains "akn-paragraph" || classes.contains "akn-subsection" then
      match children.find? (hasClass "akn-num"),
            (children.find? (hasClass "akn-content")).orElse
              (fun _ => children.find? (hasClass "akn-intro")) with
      | some numEl, some contentEl =>
        let num := getText "" numEl
        let text := getText " " contentEl
        if text ≠ "" then [num ++ " " ++ text, ""] else []
      | _, _ => []
    else if classes.contains "akn-intro" then
      let text := getText " " n
      if text ≠ "" then [text, ""] else []
    else if classes.contains "akn-p" then
      (match findTree (hasClass "akn-p") children with
       | some _ => []
       | none =>
         let text := getText " " n
         if text ≠ "" then [text, ""] else []) ++
      aknVisitL children
    else if classes.contains "akn-longTitle" then
      let text := getText " " n
      if text ≠ "" then ["*" ++ text ++ "*", ""] else []
    else aknVisitL children

/-- Forest version of `aknVisit`. -/
def aknVisitL : List HNode → List String
  | [] => []
  | n :: ns => aknVisit n ++ aknVisitL ns

end

/-- Deduplication loop of `_parse_akn`: drop a line equal to the previous
kept line unless it is empty. -/
def dedupStep (acc : List String) (l : String) : List String :=
  match acc.getLast? with
  | none => acc ++ [l]
  | some last => if l ≠ last || l = "" then acc ++ [l] else acc

def dedupLines (ls : List String) : List String := ls.foldl dedupStep []

/-- Line list of `_parse_akn` before joining, after deduplication. -/
def aknDeduped (container : HNode) : List String :=
  dedupLines (aknVisitL container.childrenOf)

/-- Function `_parse_akn` of `scripts/ingest/main.py`. -/
def parse_akn (container : HNode) : String :=
  pyStrip (joinNl (aknDeduped container))

/-- Function `parse_html` of `scripts/ingest/main.py` on the parsed DOM. -/
def parse_html (doc : HNode) : String :=
  match ((soupFind (hasClass "akn-akomaNtoso") doc).orElse
          (fun _ => soupFind (hasClass "akn-act") doc)).orElse
          (fun _ => soupFind (hasClass "akn-body") doc) with
  | some akn => parse_akn akn
  | none =>
    match ((soupFind (hasName "article") doc).orElse
            (fun _ => soupFind (hasId "main-content") doc)).orElse
            (fun _ => soupFind (hasName "body") doc) with
    | none => ""
    | some container =>
      let targets := findAllTree
        (fun n => hasName "h1" n || hasName "h2" n || hasName "h3" n || hasName "h4" n ||
          hasName "h5" n || hasName "h6" n || hasName "p" n || hasName "li" n)
        container.childrenOf
      pyStrip (joinNl (blockLines targets))

/-- Function `parse_pdf` of `scripts/ingest/main.py`, on the list of page
texts extracted by pypdf (the external extractor): page `i` becomes a
`## Page i` block; pages with no text are skipped. -/
def parse_pdf (pages : List String) : String :=
  let lines := (pages.enumFrom 1).flatMap fun p =>
    let cleaned := joinNl (((pySplitlines p.2).map pyStrip).filter (· ≠ ""))
    if cleaned = "" then []
    else ["## Page " ++ toString p.1, "", cleaned, ""]
  pyStrip (joinNl lines)

/-- Normalized-document construction of `normalize_sources`: the
frontmatter header joined above the parsed body. -/
def buildContentMd (source : SourceRecord) (body : String) : String :=
  joinNl ["---",
    "title: \"" ++ source.title ++ "\"",
    "category: \"" ++ source.category ++ "\"",
    "doc_type: \"" ++ source.doc_type ++ "\"",
    "language_code: \"" ++ source.language_code ++ "\"",
    "source_id: \"" ++ source.id ++ "\"",
    "---", "", body, ""]

/-! ### Source registry (`load_sources`)

The YAML file is parsed by the external `yaml.safe_load`; its result is
modelled as a `Yaml` value and `load_sources` is translated from the point
the parsed value is in hand (the claims about it start there).  Fatal
validation errors are the `Except.error` branch. -/

inductive Yaml where
  | nil : Yaml
  | bool (b : Bool) : Yaml
  | int (n : Int) : Yaml
  | str (s : String) : Yaml
  | list (xs : List Yaml) : Yaml
  | dict (kvs : List (String × Yaml)) : Yaml

instance : Inhabited Yaml := ⟨.nil⟩

/-- Python truthiness of a YAML value. -/
def yTruthy : Yaml → Bool
  | .nil => false
  | .bool b => b
  | .int n => n ≠ 0
  | .str s => s ≠ ""
  | .list xs => !xs.isEmpty
  | .dict kvs => !kvs.isEmpty

/-- Python `str()` of a scalar YAML value.  Containers get an abridged
repr; no claim depends on it (an id that is a container is a nonsense
registry either way). -/
def yStr : Yaml → String
  | .nil => "None"
  | .bool b => if b then "True" else "False"
  | .int n => toString n
  | .str s => s
  | .list _ => "[...]"
  | .dict _ => "\x7b...\x7d"

/-- Python `item.get(k, default)` on a dict's key-value list. -/
def yGetD (kvs : List (String × Yaml)) (k : String) (dflt : Yaml) : Yaml :=
  match kvs.lookup k with
  | some v => v
  | none => dflt

/-- Field pattern `str(item.get(k, "")).strip()`. -/
def getStrField (kvs : List (String × Yaml)) (k : String) : String :=
  pyStrip (yStr (yGetD kvs k (.str "")))

/-- Field pattern `(str(item.get(k)).strip() if item.get(k) else None)`. -/
def getOptField (kvs : List (String × Yaml)) (k : String) : Option String :=
  if yTruthy (yGetD kvs k .nil) then some (pyStrip (yStr (yGetD kvs k .nil))) else none

/-- Record construction inside the `load_sources` loop (before the
validations). -/
def buildRecord (kvs : List (String × Yaml)) : SourceRecord :=
  { id := getStrField kvs "id",
    title := getStrField kvs "title",
    publisher := getStrField kvs "publisher",
    category := getStrField kvs "category",
    doc_type := getStrField kvs "doc_type",
    source_type := ⟨(getStrField kvs "source_type").data.map lowerC⟩,
    url := getOptField kvs "url",
    acquisition := getStrField kvs "acquisition",
    local_path := getOptField kvs "local_path",
    effective_from := getOptField kvs "effective_from",
    effective_to := getOptField kvs "effective_to",
    notes := getOptField kvs "notes",
    language_code :=
      let lc := pyStrip (yStr (yGetD kvs "language_code" (.str "en-UG")))
      if lc = "" then "en-UG" else lc }

/-- Validations of one record: empty id, unknown `source_type`, unknown
`acquisition` each raise `ValueError`. -/
def validateRecord (r : SourceRecord) : Except String SourceRecord :=
  if r.id = "" then .error "Each source must include id"
  else if r.source_type ≠ "html" ∧ r.source_type ≠ "pdf" then
    .error ("Invalid source_type for " ++ r.id)
  else if r.acquisition ≠ "fetch" ∧ r.acquisition ≠ "manual_download" then
    .error ("Invalid acquisition for " ++ r.id)
  else .ok r

/-- Loop of `load_sources` over the `sources` items: non-dict items are
skipped (`continue`), dict items are built and validated in order. -/
def loadSourcesItems : List Yaml → Except String (List SourceRecord)
  | [] => .ok []
  | .dict kvs :: rest => do
    let r ← validateRecord (buildRecord kvs)
    let rs ← loadSourcesItems rest
    .ok (r :: rs)
  | _ :: rest => loadSourcesItems rest

/-- Function `load_sources` of `scripts/ingest/main.py`, from the value
returned by `yaml.safe_load` (the missing-file check precedes this and is
out of scope).  A falsy top-level value is replaced by the empty dict; a
non-dict truthy value makes `raw.get` raise `AttributeError`; a `sources`
value that is not a list raises `ValueError`. -/
def load_sources (raw : Yaml) : Except String (List SourceRecord) :=
  let raw := if yTruthy raw then raw else .dict []
  match raw with
  | .dict kvs =>
    match yGetD kvs "sources" (.list []) with
    | .list items => loadSourcesItems items
    | _ => .error "sources file must contain top-level sources list"
  | _ => .error "AttributeError"

/-! ### Loader (`load_to_postgres`)

The Postgres tables written by the load transaction are modelled as
association lists in insertion order; `INSERT ... ON CONFLICT (key) DO
UPDATE` is upsert-by-key, and the final `DELETE FROM doc_sections WHERE
full_path != ALL(paths)` keeps exactly the rows whose key occurs in
`paths`. -/

/-- One row of the `sources` table (key: `source_key`). -/
structure SourceRow where
  id : String
  source_key : String
  doc_path : String
  title : String
  publisher : String
  category : String
  doc_type : String
  source_type : String
  source_url : Option String
  acquisition : String
  local_path : Option String
  effective_from : Option String
  effective_to : Option String
  notes : Option String
  language_code : String
  content_hash : String
  content_md : String
deriving DecidableEq, Inhabited

/-- One row of the `source_documents` table (key: `doc_path`). -/
structure SourceDocRow where
  id : String
  doc_path : String
  title : String
  category : String
  content_md : String
deriving DecidableEq, Inhabited

/-- The persistent store: the four tables the load transaction touches. -/
structure Store where
  source_documents : List (String × SourceDocRow)
  sources : List (String × SourceRow)
  source_chunks : List (String × Chunk)
  doc_sections : List (String × SectionNode)
deriving DecidableEq, Inhabited

def emptyStore : Store :=
  { source_documents := [], sources := [], source_chunks := [], doc_sections := [] }

/-- Upsert by key on an association list: replace in place or append. -/
def upsertA {α : Type} (k : String) (v : α) : List (String × α) → List (String × α)
  | [] => [(k, v)]
  | (k', v') :: rest => if k' = k then (k, v) :: rest else (k', v') :: upsertA k v rest

/-- Per-run load summary (the returned dict). -/
structure LoadSummary where
  sources_upserted : Nat
  chunks_upserted : Nat
  chunks_by_category : List (String × Nat)
  chunks_by_language : List (String × Nat)
  sections_upserted : Nat
deriving DecidableEq, Inhabited

/-- Model of `collections.Counter` over a string list, in first-seen
order. -/
def bumpKey (k : String) : List (String × Nat) → List (String × Nat)
  | [] => [(k, 1)]
  | (k', n) :: rest => if k' = k then (k', n + 1) :: rest else (k', n) :: bumpKey k rest

def counter (xs : List String) : List (String × Nat) := xs.foldl (fun acc k => bumpKey k acc) []

def zeroSummary : LoadSummary :=
  { sources_upserted := 0, chunks_upserted := 0, chunks_by_category := [],
    chunks_by_language := [], sections_upserted := 0 }

/-- The `sources` row built for one normalized source. -/
def sourceRowOf (source : SourceRecord) (content_md : String) : SourceRow :=
  { id := source_uuid source,
    source_key := source.id,
    doc_path := canonical_doc_path source,
    title := source.title,
    publisher := source.publisher,
    category := source.category,
    doc_type := source.doc_type,
    source_type := source.source_type,
    source_url := source.url,
    acquisition := source.acquisition,
    local_path := source.local_path,
    effective_from := source.effective_from,
    effective_to := source.effective_to,
    notes := source.notes,
    language_code := source.language_code,
    content_hash := sha256_text content_md,
    content_md := content_md }

/-- Projection of a source row into its `source_documents` row. -/
def docRowOf (r : SourceRow) : SourceDocRow :=
  { id := r.id, doc_path := r.doc_path, title := r.title, category := r.category,
    content_md := r.content_md }

/-- Stand-in for `str(uuid.uuid4())`, the random default of
`cat_lookup.get`.  It is only reachable when a normalized source's
category is missing from `all_sources`, which no caller produces; the
claims never evaluate it. -/
def uuid4Model : String := "00000000-0000-4000-8000-000000000000"

/-- The `(full_path, id)` pair of the category node of `cat`
(`cat_lookup.get(cat, ("general", str(uuid.uuid4())))`). -/
def catLookup (category_nodes : List SectionNode) (cat : String) : String × String :=
  match category_nodes.find? (fun n => n.title = cat) with
  | some n => (n.full_path, n.id)
  | none => ("general", uuid4Model)

/-- Function `load_to_postgres` of `scripts/ingest/main.py`.  `normalized`
is the list of `(source, content_md)` pairs that survived normalization;
sources absent from it (failed or pending) contribute no rows except the
placeholders synthesized for `manual_download` sources. -/
def load_to_postgres (db : Store) (normalized : List (SourceRecord × String))
    (all_sources : Option (List SourceRecord)) : Store × LoadSummary :=
  let source_rows := normalized.map fun p => sourceRowOf p.1 p.2
  let chunk_rows := normalized.flatMap fun p => chunk_markdown p.1 p.2 1000
  let ingested := normalized.map (·.1)
  if source_rows.isEmpty then (db, zeroSummary)
  else
    let alls := match all_sources with
      | some l => if l.isEmpty then ingested else l
      | none => ingested
    let category_nodes := generate_category_nodes alls
    let doc_section_rows := normalized.flatMap fun p =>
      let ci := catLookup category_nodes p.1.category
      generate_doc_sections p.1 p.2 ci.1 ci.2
    let ingested_ids := ingested.map (·.id)
    let placeholder_rows := alls.flatMap fun s =>
      if ingested_ids.contains s.id then []
      else if s.acquisition = "manual_download" then
        let ci := catLookup category_nodes s.category
        generate_placeholder_sections s ci.1 ci.2
      else []
    let section_rows := doc_section_rows ++ placeholder_rows
    let db :=
      { db with
        source_documents := source_rows.foldl
          (fun t (r : SourceRow) => upsertA r.doc_path (docRowOf r) t) db.source_documents,
        sources := source_rows.foldl (fun t (r : SourceRow) => upsertA r.source_key r t) db.sources }
    let db :=
      { db with
        source_chunks := chunk_rows.foldl
          (fun t (c : Chunk) => upsertA c.chunk_hash c t) db.source_chunks }
    let upserted := category_nodes ++ section_rows
    let db :=
      { db with
        doc_sections := upserted.foldl
          (fun t (n : SectionNode) => upsertA n.full_path n t) db.doc_sections }
    let paths := upserted.map (·.full_path)
    let db :=
      if paths.isEmpty then db
      else { db with doc_sections := db.doc_sections.filter fun kv => paths.contains kv.1 }
    (db,
     { sources_upserted := source_rows.length,
       chunks_upserted := chunk_rows.length,
       chunks_by_category := counter (chunk_rows.map (·.category)),
       chunks_by_language := counter (chunk_rows.map (·.chunk_language_code)),
       sections_upserted := category_nodes.length + section_rows.length })

/-! ### Predicates used by the claims -/

/-- Per-chunk identity invariant of `chunk_markdown`'s `flush`. -/
def ChunkInv (source : SourceRecord) (c : Chunk) : Prop :=
  c.chunk_hash = sha256_text (source.id ++ "|" ++ c.section_ref.getD "" ++ "|" ++ c.chunk_text) ∧
  c.id = uuid5 NAMESPACE_OID c.chunk_hash ∧
  60 ≤ c.chunk_text.length

/-- Some two consecutive lines are identical. -/
def hasAdjacentDup : List String → Bool
  | a :: b :: rest => a = b || hasAdjacentDup (b :: rest)
  | _ => false

/-- Any two consecutive identical lines are empty. -/
def dupOnlyEmpty : List String → Bool
  | a :: b :: rest => (a ≠ b || a = "") && dupOnlyEmpty (b :: rest)
  | _ => true

/-- Success of one registry entry: a mapping that passes the three
validations of `load_sources`. -/
def entryOK : Yaml → Bool
  | .dict kvs =>
    match validateRecord (buildRecord kvs) with
    | .ok _ => true
    | .error _ => false
  | _ => false

/-- Record built from a registry entry (mapping entries only; the default
is irrelevant since non-mappings are skipped). -/
def buildFromYaml : Yaml → SourceRecord
  | .dict kvs => buildRecord kvs
  | _ => default

/-! ### Concrete fixtures for witnesses and counterexamples -/

/-- A registry source used by the witnesses. -/
def wSrc : SourceRecord :=
  { id := "vat-guide", title := "VAT Guide", publisher := "URA", category := "VAT",
    doc_type := "guide", source_type := "html", url := some "https://example.org/vat",
    acquisition := "fetch", local_path := none, effective_from := none,
    effective_to := none, notes := none, language_code := "en-UG" }

/-- Markdown input for the chunker witnesses: one legal-reference heading
followed by a paragraph longer than 60 characters. -/
def wMd : String :=
  "---\ntitle: \"x\"\n---\n\n## Section 12 Overview\n\nValue added tax applies to most goods and services supplied in Uganda today.\n"

/-- The single chunk produced from `wMd`. -/
def wChunk : Chunk := (chunk_markdown wSrc wMd 1000).headD default

/-- Markdown whose body is a single line of 201 words. -/
def c6md : String := joinSp (List.replicate 201 "w")

/-- The document node produced from `c6md`. -/
def c6node : SectionNode := (generate_doc_sections wSrc c6md "vat" "cid").getD 0 default

/-- An Akoma Ntoso container with a heading, a standalone paragraph and a
second heading; the walk emits adjacent blank lines around the second
heading. -/
def c8doc : HNode :=
  .elem "div" ["akn-akomaNtoso"] none
    [.elem "h2" [] none [.text "Application"],
     .elem "span" ["akn-p"] none [.text "This Act applies to supplies."],
     .elem "h2" [] none [.text "Interpretation"]]

/-- The end-to-end HTML fixture: two `h2` headings, each followed by a
paragraph longer than 60 characters. -/
def c9doc : HNode :=
  .elem "[document]" [] none
    [.elem "html" [] none
      [.elem "body" [] none
        [.elem "h2" [] none [.text "Overview"],
         .elem "p" [] none
           [.text "Value added tax applies to most goods and services supplied in Uganda today."],
         .elem "h2" [] none [.text "Rates"],
         .elem "p" [] none
           [.text "Standard rate is eighteen percent with a zero rate for exports and listed supplies."]]]]

/-- Normalized content of the fixture, exactly as `normalize_sources`
builds it from `parse_html`. -/
def c9md : String := buildContentMd wSrc (parse_html c9doc)

/-- First-run result of loading the fixture into an empty store. -/
def c9run : Store × LoadSummary := load_to_postgres emptyStore [(wSrc, c9md)] (some [wSrc])

/-- A fetch-mode source whose normalization fails in the C3 scenario. -/
def c3failedSrc : SourceRecord :=
  { id := "failed-doc", title := "Failed Doc", publisher := "URA", category := "VAT",
    doc_type := "guide", source_type := "html", url := some "https://example.org/failed",
    acquisition := "fetch", local_path := none, effective_from := none,
    effective_to := none, notes := none, language_code := "en-UG" }

/-- A tree node previously loaded for the failed source. -/
def c3node : SectionNode :=
  { id := "11111111-1111-5111-8111-111111111111", source_id := some "s", parent_id := none,
    slug := "failed-doc", full_path := "vat/failed-doc", section_ref := none,
    title := "Failed Doc", content_md := "old content", sort_order := 0, level := 1,
    word_count := 2, reading_time_minutes := 1, is_placeholder := false }

/-- A chunk previously loaded for the failed source. -/
def c3chunk : Chunk := { (default : Chunk) with chunk_hash := "oldhash", chunk_text := "old text" }

/-- A sources row previously loaded for the failed source. -/
def c3row : SourceRow := { (default : SourceRow) with source_key := "failed-doc" }

/-- Store state before the C3 run: the failed source's row, chunk and tree
node are present. -/
def c3db : Store :=
  { source_documents := [],
    sources := [("failed-doc", c3row)],
    source_chunks := [("oldhash", c3chunk)],
    doc_sections := [("vat/failed-doc", c3node)] }

/-- The C3 run: `wSrc` normalizes, `c3failedSrc` fails, so `normalized`
holds only `wSrc` while `all_sources` still lists both. -/
def c3run : Store × LoadSummary :=
  load_to_postgres c3db [(wSrc, c9md)] (some [wSrc, c3failedSrc])

/-- Page-only markdown for the C4 witness. -/
def c4md : String := "## Page 1\n\nAlpha beta gamma delta.\n\n## Page 2\n\nEpsilon zeta.\n"

/-- Reading-time invariant of every node built through
`compute_reading_time`: for a node with positive word count the stored
minutes are `max(1, round-half-even(words / 200))`. -/
def ReadInv (n : SectionNode) : Prop :=
  0 < n.word_count → n.reading_time_minutes = max 1 (pyRoundHalfEven n.word_count 200)

/-- The single well-formed entry of the witness registry. -/
def c7entry : List (String × Yaml) :=
  [("id", .str "a"), ("title", .str "T"),
   ("source_type", .str "html"), ("acquisition", .str "fetch")]

/-- A well-formed one-entry registry. -/
def c7reg : Yaml := .dict [("sources", .list [.dict c7entry])]

/-- Char-level `"\n".join` used by the line lemmas. -/
def joinNlC : List (List Char) → List Char
  | [] => []
  | [l] => l
  | l :: rest => l ++ '\n' :: joinNlC rest

/-! ## Theorems -/

/-- A property preserved by every fold step holds of the fold result. -/
theorem foldl_preserve {α β : Type} (P : α → Prop) (f : α → β → α)
    (hf : ∀ x b, P x → P (f x b)) :
    ∀ (l : List β) (a : α), P a → P (l.foldl f a)
  | [], _, ha => ha
  | b :: l, a, ha => foldl_preserve P f hf l (f a b) (hf a b ha)

theorem chunkInv_flushChunk (source : SourceRecord) (st : ChunkAcc)
    (h : ∀ c ∈ st.chunks, ChunkInv source c) :
    ∀ c ∈ (flushChunk source st).chunks, ChunkInv source c := by
  intro c hc
  simp only [flushChunk] at hc
  split at hc
  · exact h c hc
  · rename_i hlen
    simp only [List.mem_append, List.mem_singleton] at hc
    rcases hc with hc | rfl
    · exact h c hc
    · refine ⟨rfl, rfl, ?_⟩
      show 60 ≤ (flushText st.buffer).length
      omega

theorem headingState_chunks (st : ChunkAcc) (ht : String) :
    (headingState st ht).chunks = st.chunks := rfl

theorem chunkInv_chunkStep (source : SourceRecord) (m : Nat) (st : ChunkAcc) (line : String)
    (h : ∀ c ∈ st.chunks, ChunkInv source c) :
    ∀ c ∈ (chunkStep source m st line).chunks, ChunkInv source c := by
  intro c hc
  simp only [chunkStep, headingState_chunks] at hc
  repeat' split at hc
  all_goals
    first
      | exact h c hc
      | exact chunkInv_flushChunk source st h c hc
      | exact chunkInv_flushChunk source { st with buffer := st.buffer ++ [pyStrip line] } h c hc

theorem chunk_markdown_inv (source : SourceRecord) (content_md : String) (m : Nat) :
    ∀ c ∈ chunk_markdown source content_md m, ChunkInv source c := by
  intro c hc
  simp only [chunk_markdown] at hc
  have hfold : ∀ x ∈ ((pySplitlines content_md).foldl (chunkStep source m) chunkAccInit).chunks,
      ChunkInv source x :=
    foldl_preserve (fun st => ∀ x ∈ st.chunks, ChunkInv source x) (chunkStep source m)
      (fun st line hs => chunkInv_chunkStep source m st line hs)
      (pySplitlines content_md) chunkAccInit (by intro x hx; simp [chunkAccInit] at hx)
  split at hc
  · exact chunkInv_flushChunk source
      ((pySplitlines content_md).foldl (chunkStep source m) chunkAccInit) hfold c hc
  · exact hfold c hc

/-- C1: every chunk emitted by `chunk_markdown` satisfies
`chunk_hash = sha256_text(source_id | section_ref | text)` — the empty
string standing in when `section_ref` is unset and the text being the
whitespace-normalized buffer stored in `chunk_text` — and its `id` is the
deterministic UUIDv5 (namespace OID) of `chunk_hash`; identity is thus a
pure function of the chunk's content, so identical inputs reproduce the
identical chunk identity. -/
theorem chunk_identity_is_content_hash (source : SourceRecord) (content_md : String)
    (max_chars : Nat) (c : Chunk) (hc : c ∈ chunk_markdown source content_md max_chars) :
    c.chunk_hash =
      sha256_text (source.id ++ "|" ++ c.section_ref.getD "" ++ "|" ++ c.chunk_text) ∧
    c.id = uuid5 NAMESPACE_OID c.chunk_hash :=
  ⟨(chunk_markdown_inv source content_md max_chars c hc).1,
   (chunk_markdown_inv source content_md max_chars c hc).2.1⟩

set_option maxRecDepth 8000 in
set_option maxHeartbeats 1000000 in
theorem chunk_identity_is_content_hash_witness :
    wChunk ∈ chunk_markdown wSrc wMd 1000 ∧
    wChunk.chunk_hash =
      sha256_text (wSrc.id ++ "|" ++ wChunk.section_ref.getD "" ++ "|" ++ wChunk.chunk_text) ∧
    wChunk.id = uuid5 NAMESPACE_OID wChunk.chunk_hash :=
  have hm : wChunk ∈ chunk_markdown wSrc wMd 1000 := by decide
  ⟨hm, chunk_identity_is_content_hash wSrc wMd 1000 wChunk hm⟩

/-- C5: no chunk returned by `chunk_markdown` is shorter than 60
characters; `chunk_text` is stored already whitespace-normalized by
`flush`, and a buffer normalizing to fewer than 60 characters is discarded
without ever becoming a chunk. -/
theorem chunk_min_length (source : SourceRecord) (content_md : String)
    (max_chars : Nat) (c : Chunk) (hc : c ∈ chunk_markdown source content_md max_chars) :
    60 ≤ c.chunk_text.length :=
  (chunk_markdown_inv source content_md max_chars c hc).2.2

set_option maxRecDepth 8000 in
set_option maxHeartbeats 1000000 in
theorem chunk_min_length_witness :
    wChunk ∈ chunk_markdown wSrc wMd 1000 ∧ 60 ≤ wChunk.chunk_text.length :=
  have hm : wChunk ∈ chunk_markdown wSrc wMd 1000 := by decide
  ⟨hm, chunk_min_length wSrc wMd 1000 wChunk hm⟩

/-- C2: normalization and chunking are deterministic.  Every stage of the
embedded pipeline — `parse_html` (including the structured-legal
`_parse_akn` path), `parse_pdf`, the normalized-document construction and
`chunk_markdown` — is a pure function of its input, so running any of
them twice on the same input yields identical output, and in particular
identical chunk ids and content hashes. -/
theorem normalize_chunk_deterministic (doc container : HNode) (pages : List String)
    (source : SourceRecord) (body : String) (max_chars : Nat) :
    parse_html doc = parse_html doc ∧
    parse_akn container = parse_akn container ∧
    parse_pdf pages = parse_pdf pages ∧
    buildContentMd source body = buildContentMd source body ∧
    (chunk_markdown source (buildContentMd source body) max_chars).map
        (fun c => (c.id, c.chunk_hash)) =
      (chunk_markdown source (buildContentMd source body) max_chars).map
        (fun c => (c.id, c.chunk_hash)) :=
  ⟨rfl, rfl, rfl, rfl, rfl⟩

/-- C10: a run that normalized zero sources performs no store writes:
`load_to_postgres` returns the zero summary before any upsert and before
the stale-node prune, leaving every existing source, chunk and tree node
unchanged. -/
theorem empty_run_leaves_store_unchanged (db : Store)
    (all_sources : Option (List SourceRecord)) :
    load_to_postgres db [] all_sources = (db, zeroSummary) := rfl

theorem flushSection_sections (source : SourceRecord) (dp di : String) (st : SecAcc)
    (h : ∀ n ∈ st.sections, ReadInv n) :
    ∀ n ∈ (flushSection source dp di st).sections, ReadInv n := by
  intro n hn
  simp only [flushSection] at hn
  split at hn
  · exact h n hn
  · simp only [List.mem_append, List.mem_singleton] at hn
    rcases hn with hn | rfl
    · exact h n hn
    · intro hw
      revert hw
      show 0 < (if pyStrip (joinNl st.current_lines) ≠ "" then
          compute_reading_time (pyStrip (joinNl st.current_lines)) else (0, 0)).1 → _
      split
      · intro _; rfl
      · intro hw; simp at hw

theorem secStep_sections (source : SourceRecord) (dp di : String) (st : SecAcc) (line : String)
    (h : ∀ n ∈ st.sections, ReadInv n) :
    ∀ n ∈ (secStep source dp di st line).sections, ReadInv n := by
  intro n hn
  simp only [secStep] at hn
  split at hn
  · exact flushSection_sections source dp di st h n hn
  · exact h n hn

/-- C6 (amended): for every tree node generated by `generate_doc_sections`
with a positive word count `w` (measured from the node's own content
slice), `reading_time_minutes = max(1, round-half-to-even(w / 200))` —
Python's `max(1, round(words / 200))`, not `ceil(w / 200)`.  Nodes with an
empty content slice store `(0, 0)`. -/
theorem reading_time_half_even_rule (source : SourceRecord) (content_md cs ci : String)
    (n : SectionNode) (hn : n ∈ generate_doc_sections source content_md cs ci)
    (hw : 0 < n.word_count) :
    n.reading_time_minutes = max 1 (pyRoundHalfEven n.word_count 200) := by
  have key : ∀ m ∈ generate_doc_sections source content_md cs ci, ReadInv m := by
    intro m hm
    simp only [generate_doc_sections] at hm
    split at hm
    · -- page-collapse branch: the single updated document node
      simp only [List.mem_singleton] at hm
      subst hm
      intro hw
      revert hw
      show 0 < (if collapsedBody content_md ≠ "" then
          compute_reading_time (collapsedBody content_md) else (0, 0)).1 → _
      split
      · intro _; rfl
      · intro hw; simp at hw
    · -- heading-loop branch
      have hinit : ∀ m ∈ (secInit (docNodeOf source content_md cs ci)).sections, ReadInv m := by
        intro m hm
        simp only [secInit, List.mem_singleton] at hm
        subst hm
        exact fun _ => rfl
      have hfold := foldl_preserve (fun st : SecAcc => ∀ m ∈ st.sections, ReadInv m)
        (secStep source (cs ++ "/" ++ slugify source.id)
          (uuid5 NAMESPACE_URL ("doc|" ++ source.id)))
        (fun st line hs => secStep_sections source _ _ st line hs)
        (bodyLinesOf content_md) _ hinit
      have hflush := flushSection_sections source (cs ++ "/" ++ slugify source.id)
        (uuid5 NAMESPACE_URL ("doc|" ++ source.id)) _ hfold
      split at hm
      · simp only [List.mem_map] at hm
        obtain ⟨m', hm', rfl⟩ := hm
        exact fun hw => hflush m' hm' hw
      · exact hflush m hm
  exact key n hn hw

set_option maxRecDepth 8000 in
set_option maxHeartbeats 1000000 in
theorem reading_time_half_even_rule_witness :
    c6node ∈ generate_doc_sections wSrc c6md "vat" "cid" ∧ 0 < c6node.word_count ∧
    c6node.reading_time_minutes = max 1 (pyRoundHalfEven c6node.word_count 200) :=
  have hm : c6node ∈ generate_doc_sections wSrc c6md "vat" "cid" := by decide
  have hw : 0 < c6node.word_count := by decide
  ⟨hm, hw, reading_time_half_even_rule wSrc c6md "vat" "cid" c6node hm hw⟩

set_option maxRecDepth 8000 in
set_option maxHeartbeats 1000000 in
/-- C6 counterexample: the document node of a 201-word body stores 201
words and 1 minute, but `ceil(201 / 200) = 2`; so
`reading_time_minutes = ceil(words / 200)` fails on the code, which
computes `max(1, round(words / 200))` with banker's rounding. -/
theorem reading_time_not_ceil_cex :
    c6node.word_count = 201 ∧ c6node.reading_time_minutes = 1 ∧
    c6node.reading_time_minutes ≠ (c6node.word_count + 199) / 200 := by decide

theorem validateRecord_ok_eq (r r' : SourceRecord) (h : validateRecord r = .ok r') : r' = r := by
  simp only [validateRecord] at h
  split at h
  · cases h
  · split at h
    · cases h
    · split at h
      · cases h
      · cases h; rfl

theorem loadSourcesItems_ok (items : List Yaml)
    (hdict : ∀ e ∈ items, ∃ m, e = Yaml.dict m)
    (hok : ∀ e ∈ items, entryOK e = true) :
    loadSourcesItems items = .ok (items.map buildFromYaml) := by
  induction items with
  | nil => rfl
  | cons e rest ih =>
    obtain ⟨m, rfl⟩ := hdict e (List.mem_cons_self e rest)
    have he := hok _ (List.mem_cons_self _ _)
    simp only [entryOK] at he
    unfold loadSourcesItems
    cases hv : validateRecord (buildRecord m) with
    | error msg => rw [hv] at he; simp at he
    | ok r =>
      have hr := validateRecord_ok_eq _ _ hv
      subst hr
      have hrest := ih (fun x hx => hdict x (List.mem_cons_of_mem _ hx))
        (fun x hx => hok x (List.mem_cons_of_mem _ hx))
      simp [hv, hrest, Bind.bind, Except.bind, buildFromYaml]

theorem loadSourcesItems_err (items : List Yaml)
    (hdict : ∀ e ∈ items, ∃ m, e = Yaml.dict m)
    (hbad : ∃ e ∈ items, entryOK e = false) :
    ∃ msg, loadSourcesItems items = .error msg := by
  induction items with
  | nil => simp at hbad
  | cons e rest ih =>
    obtain ⟨m, rfl⟩ := hdict e (List.mem_cons_self e rest)
    unfold loadSourcesItems
    cases hv : validateRecord (buildRecord m) with
    | error msg => exact ⟨msg, by simp [Bind.bind, Except.bind]⟩
    | ok r =>
      have hrest : ∃ x ∈ rest, entryOK x = false := by
        rcases hbad with ⟨e', he', hbad'⟩
        rcases List.mem_cons.mp he' with rfl | h'
        · simp [entryOK, hv] at hbad'
        · exact ⟨e', h', hbad'⟩
      obtain ⟨msg, hmsg⟩ := ih (fun x hx => hdict x (List.mem_cons_of_mem _ hx)) hrest
      exact ⟨msg, by simp [hmsg, Bind.bind, Except.bind]⟩

/-- C7 (amended): `load_sources` validates only mapping entries: it raises
on any mapping entry lacking a non-empty (trimmed) id, with a
(lower-cased) `source_type` outside either `html` or `pdf`, or with an
`acquisition` outside either `fetch` or `manual_download`, and on a
top-level `sources` value that is not a list; a registry whose mapping
entries are all valid yields one record per mapping entry without
raising.  Non-mapping entries, however, are silently skipped, not fatal. -/
theorem load_sources_validation :
    (∀ (kvs : List (String × Yaml)) (items : List Yaml),
      kvs.lookup "sources" = some (.list items) →
      (∀ e ∈ items, ∃ m, e = Yaml.dict m) →
      ((∀ e ∈ items, entryOK e = true) →
        load_sources (.dict kvs) = .ok (items.map buildFromYaml)) ∧
      ((∃ e ∈ items, entryOK e = false) →
        ∃ msg, load_sources (.dict kvs) = .error msg)) ∧
    (∀ (kvs : List (String × Yaml)) (s : String),
      kvs.lookup "sources" = some (.str s) →
      load_sources (.dict kvs) = .error "sources file must contain top-level sources list") := by
  constructor
  · intro kvs items hl hdict
    have hne : kvs ≠ [] := by intro h; subst h; simp [List.lookup] at hl
    have htr : yTruthy (.dict kvs) = true := by
      simp [yTruthy, List.isEmpty_iff, hne]
    have hload : load_sources (.dict kvs) = loadSourcesItems items := by
      simp only [load_sources, htr, if_pos, yGetD, hl]
    constructor
    · intro hok
      rw [hload]
      exact loadSourcesItems_ok items hdict hok
    · intro hbad
      obtain ⟨msg, hmsg⟩ := loadSourcesItems_err items hdict hbad
      exact ⟨msg, by rw [hload, hmsg]⟩
  · intro kvs sv hl
    have hne : kvs ≠ [] := by intro h; subst h; simp [List.lookup] at hl
    have htr : yTruthy (.dict kvs) = true := by
      simp [yTruthy, List.isEmpty_iff, hne]
    simp only [load_sources, htr, if_pos, yGetD, hl]

theorem load_sources_validation_witness :
    load_sources c7reg = .ok ([Yaml.dict c7entry].map buildFromYaml) :=
  (load_sources_validation.1 [("sources", .list [.dict c7entry])] [.dict c7entry]
    (by rfl)
    (by intro e he; rw [List.mem_singleton] at he; exact ⟨c7entry, he⟩)).1
    (by decide)

/-- C7 counterexample: a registry whose single `sources` entry is the
bare string `oops` — an entry with no id at all — is not rejected:
`load_sources` silently skips it and returns the empty record list, so
the claim that every malformed entry aborts the run is false. -/
theorem load_sources_skips_non_mapping_cex :
    load_sources (Yaml.dict [("sources", Yaml.list [Yaml.str "oops"])]) = .ok [] := rfl

theorem dupOnlyEmpty_snoc (acc : List String) (l : String)
    (h : dupOnlyEmpty acc = true)
    (hl : ∀ last, acc.getLast? = some last → last = l → l = "") :
    dupOnlyEmpty (acc ++ [l]) = true := by
  induction acc with
  | nil => simp [dupOnlyEmpty]
  | cons a rest ih =>
    cases rest with
    | nil =>
      have h2 : a = l → l = "" := hl a (by simp)
      show dupOnlyEmpty [a, l] = true
      by_cases hal : a = l
      · simp [dupOnlyEmpty, h2 hal, hal]
      · simp [dupOnlyEmpty, hal]
    | cons b t =>
      simp only [dupOnlyEmpty, List.cons_append, Bool.and_eq_true] at h ⊢
      exact ⟨h.1, ih h.2 (fun last hlast => hl last (by rw [List.getLast?_cons_cons]; exact hlast))⟩

theorem dupOnlyEmpty_dedupStep (acc : List String) (l : String)
    (h : dupOnlyEmpty acc = true) : dupOnlyEmpty (dedupStep acc l) = true := by
  unfold dedupStep
  split
  · rename_i hnone
    exact dupOnlyEmpty_snoc acc l h (fun last hlast => by rw [hlast] at hnone; cases hnone)
  · rename_i last hlast
    split
    · rename_i hcond
      refine dupOnlyEmpty_snoc acc l h (fun last' hlast' heq => ?_)
      rw [hlast] at hlast'
      cases hlast'
      simp only [Bool.or_eq_true, decide_eq_true_eq] at hcond
      rcases hcond with hne | hemp
      · exact absurd heq.symm (by simpa using hne)
      · exact hemp
    · exact h

/-- C8 (amended): in the deduplicated line sequence `_parse_akn` builds
(then joins and strips into its output), any two consecutive identical
lines are empty: the dedup pass collapses consecutive repeated non-empty
lines, but deliberately preserves runs of blank separator lines. -/
theorem akn_dedup_collapses_nonempty_repeats (container : HNode) :
    dupOnlyEmpty (aknDeduped container) = true :=
  foldl_preserve (fun acc => dupOnlyEmpty acc = true) dedupStep
    (fun acc l h => dupOnlyEmpty_dedupStep acc l h)
    (aknVisitL container.childrenOf) [] rfl

set_option maxRecDepth 1000000 in
set_option maxHeartbeats 1000000 in
/-- C8 counterexample: on a structured-legal fixture with a heading, a
paragraph and a second heading, the walk emits blank separator lines on
both sides of the second heading and the dedup pass keeps both, so the
output of `_parse_akn` contains two consecutive identical (blank) lines. -/
theorem akn_consecutive_blank_lines_cex :
    hasAdjacentDup (pySplitlines (parse_akn c8doc)) = true := by
  have h : parse_akn c8doc
      = "## Application\n\nThis Act applies to supplies.\n\n\n## Interpretation" := by
    decide
  rw [h]
  decide

theorem lookup_upsertA_isSome {α : Type} (k kk : String) (v : α) (t : List (String × α))
    (h : (t.lookup k).isSome) : ((upsertA kk v t).lookup k).isSome := by
  induction t with
  | nil => simp [List.lookup] at h
  | cons p rest ih =>
    obtain ⟨k', v'⟩ := p
    simp only [List.lookup] at h
    simp only [upsertA]
    split
    · rename_i hk
      subst hk
      cases hbe : k == k' with
      | true => simp [List.lookup, hbe]
      | false =>
        rw [hbe] at h
        simp [List.lookup, hbe, h]
    · cases hbe : k == k' with
      | true => simp [List.lookup, hbe]
      | false =>
        rw [hbe] at h
        simp [List.lookup, hbe, ih h]

theorem lookup_upsertA_ne {α : Type} (k kk : String) (v : α) (t : List (String × α))
    (hne : kk ≠ k) : (upsertA kk v t).lookup k = t.lookup k := by
  have hbk : (k == kk) = false := by
    simp only [beq_eq_false_iff_ne, ne_eq]
    exact fun hh => hne hh.symm
  induction t with
  | nil => simp [upsertA, List.lookup, hbk]
  | cons p rest ih =>
    obtain ⟨k', v'⟩ := p
    simp only [upsertA]
    split
    · rename_i hk
      subst hk
      simp [List.lookup, hbk]
    · cases hbe : k == k' with
      | true => simp [List.lookup, hbe]
      | false => simp [List.lookup, hbe, ih]

theorem lookup_foldl_upsertA_isSome {α β : Type} (k : String) (f : β → String) (g : β → α)
    (rows : List β) (t : List (String × α)) (h : (t.lookup k).isSome) :
    ((rows.foldl (fun t r => upsertA (f r) (g r) t) t).lookup k).isSome :=
  foldl_preserve (fun t : List (String × α) => (t.lookup k).isSome)
    (fun t r => upsertA (f r) (g r) t)
    (fun t r ht => lookup_upsertA_isSome k (f r) (g r) t ht) rows t h

theorem lookup_foldl_upsertA_ne {α β : Type} (k : String) (f : β → String) (g : β → α)
    (rows : List β) (t : List (String × α)) (hrows : ∀ r ∈ rows, f r ≠ k) :
    (rows.foldl (fun t r => upsertA (f r) (g r) t) t).lookup k = t.lookup k := by
  induction rows generalizing t with
  | nil => rfl
  | cons r rest ih =>
    rw [List.foldl_cons, ih _ (fun x hx => hrows x (List.mem_cons_of_mem _ hx)),
      lookup_upsertA_ne _ _ _ _ (hrows r (List.mem_cons_self _ _))]

/-- C3 (amended): a run's load never deletes chunks — every previously
stored `chunk_hash` is still present after `load_to_postgres` — and the
`sources` row of every source that is not in this run's normalized list
(in particular every source whose normalization failed) is untouched.
The failed source's tree nodes, however, are not preserved: the run's
stale-node prune deletes every `doc_sections` row whose `full_path` is
absent from the current run's node set (see the counterexample). -/
theorem failed_source_chunks_and_rows_preserved (db : Store)
    (normalized : List (SourceRecord × String)) (all_sources : Option (List SourceRecord))
    (h key : String)
    (hh : (db.source_chunks.lookup h).isSome)
    (hkey : ∀ p ∈ normalized, p.1.id ≠ key) :
    (((load_to_postgres db normalized all_sources).1.source_chunks.lookup h).isSome) ∧
    (load_to_postgres db normalized all_sources).1.sources.lookup key = db.sources.lookup key := by
  simp only [load_to_postgres]
  split
  · exact ⟨hh, rfl⟩
  · constructor
    · show (((if _ then _ else _ : Store).source_chunks).lookup h).isSome
      split
      · exact lookup_foldl_upsertA_isSome h (fun c : Chunk => c.chunk_hash) (fun c => c)
          _ _ hh
      · exact lookup_foldl_upsertA_isSome h (fun c : Chunk => c.chunk_hash) (fun c => c)
          _ _ hh
    · show ((if _ then _ else _ : Store).sources).lookup key = _
      have hsrc : ∀ r ∈ normalized.map (fun p => sourceRowOf p.1 p.2),
          r.source_key ≠ key := by
        intro r hr
        simp only [List.mem_map] at hr
        obtain ⟨p, hp, rfl⟩ := hr
        exact hkey p hp
      split
      · exact lookup_foldl_upsertA_ne key (fun r : SourceRow => r.source_key) (fun r => r)
          _ _ hsrc
      · exact lookup_foldl_upsertA_ne key (fun r : SourceRow => r.source_key) (fun r => r)
          _ _ hsrc

set_option maxRecDepth 1000000 in
set_option maxHeartbeats 4000000 in
theorem failed_source_chunks_and_rows_preserved_witness :
    (c3db.source_chunks.lookup "oldhash").isSome ∧
    (∀ p ∈ [(wSrc, c9md)], p.1.id ≠ "failed-doc") ∧
    ((c3run.1.source_chunks.lookup "oldhash").isSome ∧
      c3run.1.sources.lookup "failed-doc" = c3db.sources.lookup "failed-doc") :=
  have hh : (c3db.source_chunks.lookup "oldhash").isSome := by decide
  have hk : ∀ p ∈ [(wSrc, c9md)], p.1.id ≠ "failed-doc" := by decide
  ⟨hh, hk,
    failed_source_chunks_and_rows_preserved c3db [(wSrc, c9md)] (some [wSrc, c3failedSrc])
      "oldhash" "failed-doc" hh hk⟩

set_option maxRecDepth 1000000 in
set_option maxHeartbeats 4000000 in
/-- C3 counterexample: the tree node previously loaded for a source whose
normalization failed in this run (`c3failedSrc`, present in
`all_sources` but absent from `normalized`) is deleted by the run's
prune, so the claim that a failed source's previously loaded records —
including its tree nodes — are untouched is false on the code. -/
theorem tree_nodes_of_failed_source_pruned_cex :
    c3db.doc_sections.lookup "vat/failed-doc" = some c3node ∧
    c3run.1.doc_sections.lookup "vat/failed-doc" = none := by decide

set_option maxRecDepth 1000000 in
set_option maxHeartbeats 4000000 in
/-- C9: ingesting the fixture HTML document (two `h2` headings, each
followed by a paragraph longer than 60 characters) into an empty store
produces exactly one source row, two chunk rows (one content hash per
heading block) and four tree nodes — one level-0 category, one level-1
document, two level-2 sections; rerunning the identical ingestion on the
resulting store reproduces the identical store and summary (identical row
counts and identical ids). -/
theorem end_to_end_fixture_idempotent :
    c9run.1.sources.length = 1 ∧
    c9run.1.source_chunks.length = 2 ∧
    c9run.1.doc_sections.length = 4 ∧
    (c9run.1.doc_sections.map fun kv => kv.2.level) = [0, 1, 2, 2] ∧
    load_to_postgres c9run.1 [(wSrc, c9md)] (some [wSrc]) = c9run := by decide

/-! ### Line lemmas for the page-only collapse (C4) -/

theorem splitlinesF_fuel (f : Nat) : ∀ cs : List Char, cs.length ≤ f →
    splitlinesF f cs = splitlinesC cs := by
  induction f using Nat.strong_induction_on with
  | _ f ih =>
    intro cs hcs
    match cs with
    | [] => cases f <;> rfl
    | c :: cs0 =>
      match f with
      | 0 => simp at hcs
      | f' + 1 =>
        have hf' : cs0.length ≤ f' := by simpa using hcs
        show splitlinesF (f' + 1) (c :: cs0) = splitlinesF (cs0.length + 1) (c :: cs0)
        simp only [splitlinesF]
        split
        · rfl
        · rename_i a rest hdrop
          have hd : rest.length ≤ cs0.length := by
            have := (List.dropWhile_sublist (l := c :: cs0) notNl).length_le
            rw [hdrop] at this
            simp only [List.length_cons] at this
            omega
          have e1 : splitlinesF f' rest = splitlinesC rest :=
            ih f' (Nat.lt_succ_self f') rest (le_trans hd hf')
          have e2 : splitlinesF cs0.length rest = splitlinesC rest :=
            ih cs0.length (Nat.lt_succ_of_le hf') rest hd
          split
          · split
            · simp [splitlinesF]
            · rename_i d r
              have hr : r.length ≤ cs0.length := by
                simp only [List.length_cons] at hd
                omega
              have e3 : splitlinesF f' r = splitlinesC r :=
                ih f' (Nat.lt_succ_self f') r (le_trans hr hf')
              have e4 : splitlinesF cs0.length r = splitlinesC r :=
                ih cs0.length (Nat.lt_succ_of_le hf') r hr
              split
              · rw [e3, e4]
              · rw [e1, e2]
          · rw [e1, e2]

theorem dropWhile_tail_len {cs rest : List Char} {a : Char}
    (hdrop : cs.dropWhile notNl = a :: rest) : rest.length < cs.length := by
  have := (List.dropWhile_sublist (l := cs) notNl).length_le
  rw [hdrop] at this
  simp only [List.length_cons] at this
  omega

theorem splitlinesC_drop_nil {cs : List Char} (hne : cs ≠ [])
    (hdrop : cs.dropWhile notNl = []) : splitlinesC cs = [cs.takeWhile notNl] := by
  match cs with
  | [] => exact absurd rfl hne
  | c :: cs0 =>
    show splitlinesF (cs0.length + 1) (c :: cs0) = _
    simp only [splitlinesF]
    rw [hdrop]

theorem splitlinesC_drop_nl {cs rest : List Char}
    (hdrop : cs.dropWhile notNl = '\n' :: rest) :
    splitlinesC cs = cs.takeWhile notNl :: splitlinesC rest := by
  match cs with
  | [] => simp [List.dropWhile] at hdrop
  | c :: cs0 =>
    have hlen : rest.length ≤ cs0.length := by
      have := dropWhile_tail_len hdrop
      simp only [List.length_cons] at this
      omega
    show splitlinesF (cs0.length + 1) (c :: cs0) = _
    simp only [splitlinesF]
    rw [hdrop]
    show (c :: cs0).takeWhile notNl :: splitlinesF cs0.length rest = _
    rw [splitlinesF_fuel cs0.length rest hlen]

theorem splitlinesC_drop_crnl {cs r : List Char}
    (hdrop : cs.dropWhile notNl = '\r' :: '\n' :: r) :
    splitlinesC cs = cs.takeWhile notNl :: splitlinesC r := by
  match cs with
  | [] => simp [List.dropWhile] at hdrop
  | c :: cs0 =>
    have hlen : r.length ≤ cs0.length := by
      have := dropWhile_tail_len hdrop
      simp only [List.length_cons] at this
      omega
    show splitlinesF (cs0.length + 1) (c :: cs0) = _
    simp only [splitlinesF]
    rw [hdrop]
    show (c :: cs0).takeWhile notNl :: splitlinesF cs0.length r = _
    rw [splitlinesF_fuel cs0.length r hlen]

theorem splitlinesC_drop_cr_nil {cs : List Char}
    (hdrop : cs.dropWhile notNl = ['\r']) :
    splitlinesC cs = [cs.takeWhile notNl] := by
  match cs with
  | [] => simp [List.dropWhile] at hdrop
  | c :: cs0 =>
    show splitlinesF (cs0.length + 1) (c :: cs0) = _
    simp only [splitlinesF]
    rw [hdrop]
    show (c :: cs0).takeWhile notNl :: splitlinesF cs0.length [] = _
    simp [splitlinesF]

theorem splitlinesC_drop_cr {cs r : List Char} {d : Char} (hdn : d ≠ '\n')
    (hdrop : cs.dropWhile notNl = '\r' :: d :: r) :
    splitlinesC cs = cs.takeWhile notNl :: splitlinesC (d :: r) := by
  match cs with
  | [] => simp [List.dropWhile] at hdrop
  | c :: cs0 =>
    have hlen : (d :: r).length ≤ cs0.length := by
      have := dropWhile_tail_len hdrop
      simp only [List.length_cons] at this ⊢
      omega
    show splitlinesF (cs0.length + 1) (c :: cs0) = _
    simp only [splitlinesF]
    rw [hdrop]
    show (if d = '\n' then (c :: cs0).takeWhile notNl :: splitlinesF cs0.length r
      else (c :: cs0).takeWhile notNl :: splitlinesF cs0.length (d :: r)) = _
    rw [if_neg hdn, splitlinesF_fuel cs0.length (d :: r) hlen]

/-- The head of a nonempty `dropWhile notNl` result is a line separator. -/
theorem drop_head_sep {cs rest : List Char} {a : Char}
    (hdrop : cs.dropWhile notNl = a :: rest) : a = '\n' ∨ a = '\r' := by
  have h := List.head?_dropWhile_not notNl cs
  rw [hdrop] at h
  simp only [List.head?_cons] at h
  by_cases h1 : a = '\n'
  · exact Or.inl h1
  by_cases h2 : a = '\r'
  · exact Or.inr h2
  exfalso
  simp [notNl, h1, h2] at h

/-- Every line produced by `splitlinesC` is free of line separators. -/
theorem splitlinesC_no_nl : ∀ (f : Nat) (cs : List Char) (l : List Char),
    l ∈ splitlinesF f cs → ∀ c ∈ l, notNl c = true := by
  intro f
  induction f with
  | zero =>
    intro cs l hl
    match cs with
    | [] => simp [splitlinesF] at hl
    | _ :: _ => simp [splitlinesF] at hl
  | succ f' ih =>
    intro cs l hl
    match cs with
    | [] => simp [splitlinesF] at hl
    | c :: cs0 =>
      simp only [splitlinesF] at hl
      have htake : ∀ x ∈ (c :: cs0).takeWhile notNl, notNl x = true :=
        fun x hx => List.mem_takeWhile_imp hx
      revert hl
      split
      · intro hl
        rw [List.mem_singleton] at hl
        subst hl
        exact htake
      · split
        · split
          · intro hl
            rcases List.mem_cons.mp hl with rfl | hl
            · exact htake
            · exact ih _ _ hl
          · split
            · intro hl
              rcases List.mem_cons.mp hl with rfl | hl
              · exact htake
              · exact ih _ _ hl
            · intro hl
              rcases List.mem_cons.mp hl with rfl | hl
              · exact htake
              · exact ih _ _ hl
        · intro hl
          rcases List.mem_cons.mp hl with rfl | hl
          · exact htake
          · exact ih _ _ hl

/-- Splitting `l ++ "\n" ++ tail` for a separator-free `l` peels off `l`. -/
theorem splitlinesC_append_nl {l : List Char} (hl : ∀ c ∈ l, notNl c = true)
    (tail : List Char) : splitlinesC (l ++ '\n' :: tail) = l :: splitlinesC tail := by
  have htake : (l ++ '\n' :: tail).takeWhile notNl = l := by
    rw [List.takeWhile_append]
    rw [List.takeWhile_eq_self_iff.mpr hl]
    simp [List.takeWhile, notNl]
  have hdrop : (l ++ '\n' :: tail).dropWhile notNl = '\n' :: tail := by
    rw [List.dropWhile_append]
    rw [List.dropWhile_eq_nil_iff.mpr hl]
    simp [List.dropWhile, notNl]
  rw [splitlinesC_drop_nl hdrop, htake]

/-- Every line of a joined separator-free line list is one of the lines. -/
theorem mem_splitlinesC_joinNlC {L : List (List Char)}
    (hL : ∀ l ∈ L, ∀ c ∈ l, notNl c = true) :
    ∀ l' ∈ splitlinesC (joinNlC L), l' ∈ L := by
  induction L with
  | nil => intro l' hl'; simp [joinNlC, splitlinesC, splitlinesF] at hl'
  | cons l rest ih =>
    intro l' hl'
    cases rest with
    | nil =>
      have hlnl : ∀ c ∈ l, notNl c = true := hL l (List.mem_singleton.mpr rfl)
      show l' ∈ [l]
      cases hl0 : l with
      | nil =>
        subst hl0
        simp [joinNlC, splitlinesC, splitlinesF] at hl'
      | cons c cs0 =>
        rw [show joinNlC [l] = l from rfl, hl0] at hl'
        rw [splitlinesC_drop_nil (by simp) (List.dropWhile_eq_nil_iff.mpr (hl0 ▸ hlnl)),
          List.takeWhile_eq_self_iff.mpr (hl0 ▸ hlnl)] at hl'
        rw [List.mem_singleton] at hl'
        subst hl'
        rw [← hl0]
        exact List.mem_singleton.mpr rfl
    | cons l2 rest2 =>
      rw [show joinNlC (l :: l2 :: rest2) = l ++ '\n' :: joinNlC (l2 :: rest2) from rfl,
        splitlinesC_append_nl (hL l (List.mem_cons_self _ _))] at hl'
      rcases List.mem_cons.mp hl' with rfl | hl'
      · exact List.mem_cons_self _ _
      · exact List.mem_cons_of_mem _ (ih (fun x hx => hL x (List.mem_cons_of_mem _ hx)) l' hl')

/-- Stripping is unchanged by whitespace consed on the left. -/
theorem trimC_cons_ws {c : Char} (hc : pyIsSpace c = true) (l : List Char) :
    trimC (c :: l) = trimC l := by
  unfold trimC trimLeftC
  rw [List.dropWhile_cons_of_pos hc]

/-- Right-stripping is unchanged by whitespace appended on the right. -/
theorem trimRightC_snoc_ws {c : Char} (hc : pyIsSpace c = true) (l : List Char) :
    trimRightC (l ++ [c]) = trimRightC l := by
  unfold trimRightC
  rw [List.reverse_append]
  simp only [List.reverse_cons, List.reverse_nil, List.nil_append, List.singleton_append]
  rw [List.dropWhile_cons_of_pos hc]

/-- Stripping is unchanged by whitespace appended on the right. -/
theorem trimC_snoc_ws {c : Char} (hc : pyIsSpace c = true) (l : List Char) :
    trimC (l ++ [c]) = trimC l := by
  unfold trimC trimLeftC
  rw [List.dropWhile_append]
  split
  · rename_i hnil
    rw [List.isEmpty_iff] at hnil
    rw [hnil]
    simp only [List.dropWhile_cons, hc, if_pos]
    rfl
  · exact trimRightC_snoc_ws hc _

/-- Whitespace consed on the left preserves lines up to stripping. -/
theorem mem_splitlinesC_cons_ws {c : Char} (hc : pyIsSpace c = true) (rest : List Char) :
    ∀ l ∈ splitlinesC rest, ∃ m ∈ splitlinesC (c :: rest), trimC l = trimC m := by
  intro l hl
  by_cases hn : c = '\n'
  · subst hn
    refine ⟨l, ?_, rfl⟩
    rw [show ('\n' :: rest : List Char) = [] ++ '\n' :: rest from rfl,
      splitlinesC_append_nl (by intro x hx; simp at hx)]
    exact List.mem_cons_of_mem _ hl
  by_cases hr : c = '\r'
  · subst hr
    match rest with
    | [] => simp [splitlinesC, splitlinesF] at hl
    | d :: rest2 =>
      by_cases hd : d = '\n'
      · subst hd
        have h1 : splitlinesC ('\r' :: '\n' :: rest2) = [] :: splitlinesC rest2 := by
          apply splitlinesC_drop_crnl
          simp [List.dropWhile, notNl]
        have h2 : splitlinesC ('\n' :: rest2) = [] :: splitlinesC rest2 := by
          rw [show ('\n' :: rest2 : List Char) = [] ++ '\n' :: rest2 from rfl,
            splitlinesC_append_nl (by intro x hx; simp at hx)]
        rw [h2] at hl
        rw [h1]
        exact ⟨l, hl, rfl⟩
      · have h1 : splitlinesC ('\r' :: d :: rest2) = [] :: splitlinesC (d :: rest2) := by
          apply splitlinesC_drop_cr hd
          simp [List.dropWhile, notNl]
        rw [h1]
        exact ⟨l, List.mem_cons_of_mem _ hl, rfl⟩
  · -- plain whitespace: it joins the first line
    have hnl : notNl c = true := by simp [notNl, hn, hr]
    match hrest : rest with
    | [] => simp [splitlinesC, splitlinesF] at hl
    | r0 :: rest0 =>
      rw [← hrest] at hl ⊢
      have hne : rest ≠ [] := by rw [hrest]; simp
      cases hdrop : rest.dropWhile notNl with
      | nil =>
        rw [splitlinesC_drop_nil hne hdrop] at hl
        rw [List.mem_singleton] at hl
        subst hl
        have hdrop2 : (c :: rest).dropWhile notNl = [] := by
          rw [List.dropWhile_cons_of_pos hnl, hdrop]
        have htake2 : (c :: rest).takeWhile notNl = c :: rest.takeWhile notNl := by
          rw [List.takeWhile_cons_of_pos hnl]
        refine ⟨c :: rest.takeWhile notNl, ?_, ?_⟩
        · rw [splitlinesC_drop_nil (by simp) hdrop2, htake2]
          exact List.mem_singleton.mpr rfl
        · exact (trimC_cons_ws hc _).symm
      | cons a tail =>
        have hdrop2 : (c :: rest).dropWhile notNl = a :: tail := by
          rw [List.dropWhile_cons_of_pos hnl, hdrop]
        have htake2 : (c :: rest).takeWhile notNl = c :: rest.takeWhile notNl := by
          rw [List.takeWhile_cons_of_pos hnl]
        rcases drop_head_sep hdrop with rfl | rfl
        · rw [splitlinesC_drop_nl hdrop] at hl
          rcases List.mem_cons.mp hl with rfl | hl
          · refine ⟨c :: rest.takeWhile notNl, ?_, (trimC_cons_ws hc _).symm⟩
            rw [splitlinesC_drop_nl hdrop2, htake2]
            exact List.mem_cons_self _ _
          · refine ⟨l, ?_, rfl⟩
            rw [splitlinesC_drop_nl hdrop2]
            exact List.mem_cons_of_mem _ hl
        · match tail with
          | [] =>
            rw [splitlinesC_drop_cr_nil hdrop] at hl
            rw [List.mem_singleton] at hl
            subst hl
            refine ⟨c :: rest.takeWhile notNl, ?_, (trimC_cons_ws hc _).symm⟩
            rw [splitlinesC_drop_cr_nil hdrop2, htake2]
            exact List.mem_singleton.mpr rfl
          | d :: tail2 =>
            by_cases hd : d = '\n'
            · subst hd
              rw [splitlinesC_drop_crnl hdrop] at hl
              rcases List.mem_cons.mp hl with rfl | hl
              · refine ⟨c :: rest.takeWhile notNl, ?_, (trimC_cons_ws hc _).symm⟩
                rw [splitlinesC_drop_crnl hdrop2, htake2]
                exact List.mem_cons_self _ _
              · refine ⟨l, ?_, rfl⟩
                rw [splitlinesC_drop_crnl hdrop2]
                exact List.mem_cons_of_mem _ hl
            · rw [splitlinesC_drop_cr hd hdrop] at hl
              rcases List.mem_cons.mp hl with rfl | hl
              · refine ⟨c :: rest.takeWhile notNl, ?_, (trimC_cons_ws hc _).symm⟩
                rw [splitlinesC_drop_cr hd hdrop2, htake2]
                exact List.mem_cons_self _ _
              · refine ⟨l, ?_, rfl⟩
                rw [splitlinesC_drop_cr hd hdrop2]
                exact List.mem_cons_of_mem _ hl

/-- Taking the separator-free prefix ignores a single appended character when a separator exists. -/
theorem takeWhile_append_single {xs : List Char} {c : Char} (h : xs.dropWhile notNl ≠ []) :
    (xs ++ [c]).takeWhile notNl = xs.takeWhile notNl := by
  rw [List.takeWhile_append, if_neg]
  intro hlen
  have hsplit := List.takeWhile_append_dropWhile (p := notNl) (l := xs)
  have h2 := congrArg List.length hsplit
  simp only [List.length_append] at h2
  have h3 : (xs.dropWhile notNl).length = 0 := by omega
  exact h (List.eq_nil_of_length_eq_zero h3)

/-- Dropping the separator-free prefix distributes over a single appended character. -/
theorem dropWhile_append_single {xs : List Char} {c : Char} (h : xs.dropWhile notNl ≠ []) :
    (xs ++ [c]).dropWhile notNl = xs.dropWhile notNl ++ [c] := by
  rw [List.dropWhile_append, if_neg]
  rw [List.isEmpty_iff]
  exact h

/-- A whitespace character appended on the right preserves lines up to stripping. -/
theorem mem_splitlinesC_snoc_ws {c : Char} (hc : pyIsSpace c = true) :
    ∀ (n : Nat) (xs : List Char), xs.length ≤ n → ∀ l ∈ splitlinesC xs,
      ∃ m ∈ splitlinesC (xs ++ [c]), trimC l = trimC m := by
  intro n
  induction n with
  | zero =>
    intro xs hlen l hl
    have hx : xs = [] := List.eq_nil_of_length_eq_zero (Nat.le_zero.mp hlen)
    subst hx
    simp [splitlinesC, splitlinesF] at hl
  | succ n ih =>
    intro xs hlen l hl
    have hne : xs ≠ [] := by rintro rfl; simp [splitlinesC, splitlinesF] at hl
    cases hdrop : xs.dropWhile notNl with
    | nil =>
      rw [splitlinesC_drop_nil hne hdrop] at hl
      rw [List.mem_singleton] at hl
      subst hl
      have hall : ∀ x ∈ xs, notNl x = true := List.dropWhile_eq_nil_iff.mp hdrop
      have htk : xs.takeWhile notNl = xs := List.takeWhile_eq_self_iff.mpr hall
      rw [htk]
      by_cases hcn : c = '\n'
      · subst hcn
        refine ⟨xs, ?_, rfl⟩
        rw [show xs ++ ['\n'] = xs ++ '\n' :: [] from rfl, splitlinesC_append_nl hall []]
        exact List.mem_cons_self _ _
      by_cases hcr : c = '\r'
      · subst hcr
        have hdrop2 : (xs ++ ['\r']).dropWhile notNl = ['\r'] := by
          rw [List.dropWhile_append, if_pos (by rw [List.isEmpty_iff]; exact hdrop)]
          simp [List.dropWhile, notNl]
        refine ⟨xs, ?_, rfl⟩
        have htk2 : (xs ++ ['\r']).takeWhile notNl = xs := by
          rw [List.takeWhile_append, if_pos (by rw [htk])]
          simp [List.takeWhile, notNl]
        rw [splitlinesC_drop_cr_nil hdrop2, htk2]
        exact List.mem_singleton.mpr rfl
      · have hnlc : notNl c = true := by simp [notNl, hcn, hcr]
        refine ⟨xs ++ [c], ?_, (trimC_snoc_ws hc xs).symm⟩
        have hdrop2 : (xs ++ [c]).dropWhile notNl = [] := by
          rw [List.dropWhile_append, if_pos (by rw [List.isEmpty_iff]; exact hdrop)]
          simp [List.dropWhile, hnlc]
        have htk2 : (xs ++ [c]).takeWhile notNl = xs ++ [c] := by
          apply List.takeWhile_eq_self_iff.mpr
          intro x hx
          rcases List.mem_append.mp hx with h1 | h1
          · exact hall x h1
          · rw [List.mem_singleton] at h1
            subst h1
            exact hnlc
        rw [splitlinesC_drop_nil (by simp) hdrop2, htk2]
        exact List.mem_singleton.mpr rfl
    | cons a rest =>
      have hdropne : xs.dropWhile notNl ≠ [] := by rw [hdrop]; simp
      have htkeq : (xs ++ [c]).takeWhile notNl = xs.takeWhile notNl :=
        takeWhile_append_single hdropne
      have hdreq : (xs ++ [c]).dropWhile notNl = a :: (rest ++ [c]) := by
        rw [dropWhile_append_single hdropne, hdrop]
        rfl
      rcases drop_head_sep hdrop with rfl | rfl
      · rw [splitlinesC_drop_nl hdrop] at hl
        have hrlen : rest.length ≤ n := by
          have := dropWhile_tail_len hdrop
          omega
        rcases List.mem_cons.mp hl with rfl | hl
        · refine ⟨xs.takeWhile notNl, ?_, rfl⟩
          rw [splitlinesC_drop_nl hdreq, htkeq]
          exact List.mem_cons_self _ _
        · obtain ⟨m, hm, he⟩ := ih rest hrlen l hl
          refine ⟨m, ?_, he⟩
          rw [splitlinesC_drop_nl hdreq]
          exact List.mem_cons_of_mem _ hm
      · cases rest with
        | nil =>
          rw [splitlinesC_drop_cr_nil hdrop] at hl
          rw [List.mem_singleton] at hl
          subst hl
          by_cases hcn : c = '\n'
          · subst hcn
            refine ⟨xs.takeWhile notNl, ?_, rfl⟩
            rw [splitlinesC_drop_crnl hdreq, htkeq]
            exact List.mem_cons_self _ _
          · refine ⟨xs.takeWhile notNl, ?_, rfl⟩
            rw [splitlinesC_drop_cr hcn hdreq, htkeq]
            exact List.mem_cons_self _ _
        | cons d rest2 =>
          by_cases hdn : d = '\n'
          · subst hdn
            rw [splitlinesC_drop_crnl hdrop] at hl
            have hrlen : rest2.length ≤ n := by
              have := dropWhile_tail_len hdrop
              simp only [List.length_cons] at this
              omega
            have hdreq2 : (xs ++ [c]).dropWhile notNl = '\r' :: '\n' :: (rest2 ++ [c]) := hdreq
            rcases List.mem_cons.mp hl with rfl | hl
            · refine ⟨xs.takeWhile notNl, ?_, rfl⟩
              rw [splitlinesC_drop_crnl hdreq2, htkeq]
              exact List.mem_cons_self _ _
            · obtain ⟨m, hm, he⟩ := ih rest2 hrlen l hl
              refine ⟨m, ?_, he⟩
              rw [splitlinesC_drop_crnl hdreq2]
              exact List.mem_cons_of_mem _ hm
          · rw [splitlinesC_drop_cr hdn hdrop] at hl
            have hrlen : (d :: rest2).length ≤ n := by
              have := dropWhile_tail_len hdrop
              simp only [List.length_cons] at this ⊢
              omega
            have hdreq2 : (xs ++ [c]).dropWhile notNl = '\r' :: d :: (rest2 ++ [c]) := hdreq
            rcases List.mem_cons.mp hl with rfl | hl
            · refine ⟨xs.takeWhile notNl, ?_, rfl⟩
              rw [splitlinesC_drop_cr hdn hdreq2, htkeq]
              exact List.mem_cons_self _ _
            · obtain ⟨m, hm, he⟩ := ih (d :: rest2) hrlen l hl
              refine ⟨m, ?_, he⟩
              rw [splitlinesC_drop_cr hdn hdreq2]
              exact List.mem_cons_of_mem _ hm

/-- A whitespace prefix preserves lines up to stripping. -/
theorem mem_splitlinesC_ws_prefix : ∀ (pre : List Char), (∀ c ∈ pre, pyIsSpace c = true) →
    ∀ (rest : List Char), ∀ l ∈ splitlinesC rest,
      ∃ m ∈ splitlinesC (pre ++ rest), trimC l = trimC m := by
  intro pre
  induction pre with
  | nil => intro _ rest l hl; exact ⟨l, hl, rfl⟩
  | cons c pre2 ih =>
    intro hp rest l hl
    obtain ⟨m, hm, he⟩ := ih (fun x hx => hp x (List.mem_cons_of_mem _ hx)) rest l hl
    obtain ⟨m2, hm2, he2⟩ :=
      mem_splitlinesC_cons_ws (hp c (List.mem_cons_self _ _)) (pre2 ++ rest) m hm
    exact ⟨m2, hm2, he.trans he2⟩

/-- A whitespace suffix preserves lines up to stripping. -/
theorem mem_splitlinesC_ws_suffix : ∀ (suf : List Char), (∀ c ∈ suf, pyIsSpace c = true) →
    ∀ (xs : List Char), ∀ l ∈ splitlinesC xs,
      ∃ m ∈ splitlinesC (xs ++ suf), trimC l = trimC m := by
  intro suf
  induction suf with
  | nil =>
    intro _ xs l hl
    rw [List.append_nil]
    exact ⟨l, hl, rfl⟩
  | cons c suf2 ih =>
    intro hs xs l hl
    obtain ⟨m, hm, he⟩ :=
      mem_splitlinesC_snoc_ws (hs c (List.mem_cons_self _ _)) xs.length xs le_rfl l hl
    obtain ⟨m2, hm2, he2⟩ := ih (fun x hx => hs x (List.mem_cons_of_mem _ hx)) (xs ++ [c]) m hm
    refine ⟨m2, ?_, he.trans he2⟩
    rw [show xs ++ c :: suf2 = (xs ++ [c]) ++ suf2 by simp]
    exact hm2

/-- Every line of a stripped text matches a line of the original up to stripping. -/
theorem mem_splitlinesC_trimC (cs : List Char) :
    ∀ l ∈ splitlinesC (trimC cs), ∃ m ∈ splitlinesC cs, trimC l = trimC m := by
  intro l hl
  have hdecR :
      trimLeftC cs = trimC cs ++ ((trimLeftC cs).reverse.takeWhile pyIsSpace).reverse := by
    have h := List.takeWhile_append_dropWhile (p := pyIsSpace) (l := (trimLeftC cs).reverse)
    have h2 := congrArg List.reverse h
    rw [List.reverse_append, List.reverse_reverse] at h2
    exact h2.symm
  have hsuf : ∀ c ∈ ((trimLeftC cs).reverse.takeWhile pyIsSpace).reverse, pyIsSpace c = true := by
    intro c hcmem
    rw [List.mem_reverse] at hcmem
    exact List.mem_takeWhile_imp hcmem
  obtain ⟨m, hm, he⟩ := mem_splitlinesC_ws_suffix _ hsuf (trimC cs) l hl
  rw [← hdecR] at hm
  have hdecL : cs = cs.takeWhile pyIsSpace ++ trimLeftC cs :=
    (List.takeWhile_append_dropWhile (p := pyIsSpace) (l := cs)).symm
  have hpre : ∀ c ∈ cs.takeWhile pyIsSpace, pyIsSpace c = true :=
    fun c hcmem => List.mem_takeWhile_imp hcmem
  obtain ⟨m2, hm2, he2⟩ := mem_splitlinesC_ws_prefix _ hpre (trimLeftC cs) m hm
  rw [← hdecL] at hm2
  exact ⟨m2, hm2, he.trans he2⟩

/-- Character-level view of `joinNl`. -/
theorem joinNl_data : ∀ L : List String, (joinNl L).data = joinNlC (L.map String.data)
  | [] => rfl
  | [_] => rfl
  | l :: l2 :: rest => by
    show (l ++ "\n" ++ joinNl (l2 :: rest)).data
      = l.data ++ '\n' :: joinNlC ((l2 :: rest).map String.data)
    rw [String.data_append, String.data_append, joinNl_data (l2 :: rest)]
    simp

/-- The frontmatter filter only removes lines. -/
theorem mem_stripFrontmatter : ∀ (fm : Bool) (lines : List String),
    ∀ l ∈ stripFrontmatter fm lines, l ∈ lines := by
  intro fm lines
  induction lines generalizing fm with
  | nil => intro l hl; simp [stripFrontmatter] at hl
  | cons a rest ih =>
    intro l hl
    simp only [stripFrontmatter] at hl
    split at hl
    · exact List.mem_cons_of_mem _ (ih _ l hl)
    · split at hl
      · exact List.mem_cons_of_mem _ (ih _ l hl)
      · rcases List.mem_cons.mp hl with rfl | hl
        · exact List.mem_cons_self _ _
        · exact List.mem_cons_of_mem _ (ih _ l hl)

/-- Lines produced by `pySplitlines` contain no line separators. -/
theorem pySplitlines_no_nl (s : String) :
    ∀ l ∈ pySplitlines s, ∀ c ∈ l.data, notNl c = true := by
  intro l hl
  simp only [pySplitlines, List.mem_map] at hl
  obtain ⟨ld, hld, rfl⟩ := hl
  exact splitlinesC_no_nl _ _ ld hld

/-- No line of the collapsed page-only body matches the page-heading
pattern: the collapse filter removes every matching body line, stripping
the joined text only adds or removes surrounding whitespace of the first
and last line, and the matcher is invariant under stripping a line. -/
theorem collapsedBody_no_page_lines (content_md : String) :
    ∀ l ∈ pySplitlines (collapsedBody content_md), isPageHeadingLine l = false := by
  intro l hl
  simp only [pySplitlines, List.mem_map] at hl
  obtain ⟨ld, hld, rfl⟩ := hl
  have hps : ∀ s : String, (pyStrip s).data = trimC s.data := fun s => rfl
  have hcb : (collapsedBody content_md).data
      = trimC (joinNlC (((bodyLinesOf content_md).filter
          fun x => !isPageHeadingLine x).map String.data)) := by
    simp only [collapsedBody, hps, joinNl_data]
  rw [hcb] at hld
  obtain ⟨m, hm, he⟩ := mem_splitlinesC_trimC _ ld hld
  have hLnl : ∀ x ∈ ((bodyLinesOf content_md).filter
      fun x => !isPageHeadingLine x).map String.data, ∀ c ∈ x, notNl c = true := by
    intro x hx
    rw [List.mem_map] at hx
    obtain ⟨f, hf, rfl⟩ := hx
    have hf2 : f ∈ bodyLinesOf content_md := (List.mem_filter.mp hf).1
    have hf3 : f ∈ pySplitlines content_md := mem_stripFrontmatter false _ f hf2
    exact pySplitlines_no_nl content_md f hf3
  have hmem := mem_splitlinesC_joinNlC hLnl m hm
  rw [List.mem_map] at hmem
  obtain ⟨f, hf, rfl⟩ := hmem
  have hfpage : isPageHeadingLine f = false := by
    have h3 := (List.mem_filter.mp hf).2
    simpa using h3
  show isPageHeadingLineC ld = false
  unfold isPageHeadingLineC
  rw [he]
  have h4 : isPageHeadingLineC f.data = false := hfpage
  unfold isPageHeadingLineC at h4
  exact h4

/-- C4: for a document body with at least one heading in which every
heading matches the pattern Page N, `generate_doc_sections` returns
exactly one node, at level 1, with no level-2 children; that node's
content is the collapsed body, which contains no line matching the
page-heading pattern, and its word count and reading time are recomputed
from that collapsed content (with the code's zero pair for an empty
collapsed body). -/
theorem page_only_collapse (source : SourceRecord)
    (content_md category_slug category_id : String)
    (h1 : docHeadings content_md ≠ [])
    (h2 : (docHeadings content_md).all isPageRef = true) :
    ∃ node : SectionNode,
      generate_doc_sections source content_md category_slug category_id = [node] ∧
      node.level = 1 ∧
      (∀ n ∈ generate_doc_sections source content_md category_slug category_id, n.level ≠ 2) ∧
      node.content_md = collapsedBody content_md ∧
      (∀ l ∈ pySplitlines node.content_md, isPageHeadingLine l = false) ∧
      node.word_count = (compute_reading_time node.content_md).1 ∧
      node.reading_time_minutes =
        (if node.content_md = "" then 0 else (compute_reading_time node.content_md).2) := by
  have hall : allPageHeadings content_md = true := by
    unfold allPageHeadings
    rw [h2]
    simp [List.isEmpty_eq_false, h1]
  have heq : generate_doc_sections source content_md category_slug category_id =
      [{ docNodeOf source content_md category_slug category_id with
           content_md := collapsedBody content_md,
           word_count := (if collapsedBody content_md ≠ "" then
             compute_reading_time (collapsedBody content_md) else (0, 0)).1,
           reading_time_minutes := (if collapsedBody content_md ≠ "" then
             compute_reading_time (collapsedBody content_md) else (0, 0)).2 }] := by
    simp only [generate_doc_sections, hall, eq_self_iff_true, if_true]
  refine ⟨_, heq, rfl, ?_, rfl, ?_, ?_, ?_⟩
  · intro n hn
    rw [heq, List.mem_singleton] at hn
    subst hn
    simp [docNodeOf]
  · exact collapsedBody_no_page_lines content_md
  · show (if collapsedBody content_md ≠ "" then
        compute_reading_time (collapsedBody content_md) else (0, 0)).1
      = (compute_reading_time (collapsedBody content_md)).1
    by_cases hcb : collapsedBody content_md = ""
    · rw [hcb]
      simp [compute_reading_time, wordCount, splitWsC, splitWsF]
    · rw [if_pos hcb]
  · show (if collapsedBody content_md ≠ "" then
        compute_reading_time (collapsedBody content_md) else (0, 0)).2
      = (if collapsedBody content_md = "" then 0
         else (compute_reading_time (collapsedBody content_md)).2)
    by_cases hcb : collapsedBody content_md = ""
    · rw [hcb]
      simp
    · rw [if_pos hcb, if_neg hcb]

set_option maxRecDepth 200000 in
/-- Witness for C4 on the two-page fixture `c4md`. -/
theorem page_only_collapse_witness :
    docHeadings c4md ≠ [] ∧
    (docHeadings c4md).all isPageRef = true ∧
    (∃ node : SectionNode,
      generate_doc_sections wSrc c4md "vat" "cid" = [node] ∧
      node.level = 1 ∧
      (∀ n ∈ generate_doc_sections wSrc c4md "vat" "cid", n.level ≠ 2) ∧
      node.content_md = collapsedBody c4md ∧
      (∀ l ∈ pySplitlines node.content_md, isPageHeadingLine l = false) ∧
      node.word_count = (compute_reading_time node.content_md).1 ∧
      node.reading_time_minutes =
        (if node.content_md = "" then 0 else (compute_reading_time node.content_md).2)) :=
  ⟨by decide, by decide, page_only_collapse wSrc c4md "vat" "cid" (by decide) (by decide)⟩

end Ingest
